import Mathlib

/-!
Verification development for the `oss_dashboard` repository.

The definitions below are a shallow embedding of the Python source:
`github_client.py` (cursor-paginated GraphQL client with rate-limit backoff),
`fetchers/repository.py` (contributor-statistics poller),
`fetchers/utils.py` (filtering policy), the record-update loops of
`fetchers/issues.py`, `fetchers/discussions.py`, `fetchers/downloads_pepy.py`
and `fetchers/fetch_parquet.py`, and the configuration checks of `main.py`.
Network providers are modelled as explicit response functions / scripted stubs.
-/

namespace OssDash

/-- Python/JSON values, as handled by `json.loads` and the dict accesses in
the source.  Numbers are modelled as integers (the payload shapes the code
reads are integer counts). -/
inductive Json where
  | null
  | bool (b : Bool)
  | num (n : Int)
  | str (s : String)
  | arr (elems : List Json)
  | obj (fields : List (String × Json))

/-- First-match association-list lookup, the model of Python dict indexing
(Python dicts have unique keys, so first-match agrees with dict semantics). -/
def alookup {α : Type} : List (String × α) → String → Option α
  | [], _ => none
  | (k, v) :: rest, key => if k = key then some v else alookup rest key

/-- Bool-valued key-membership test for the association-list dict model. -/
def hasKey {α : Type} : List (String × α) → String → Bool
  | [], _ => false
  | (k, _) :: rest, key => if k = key then true else hasKey rest key

/-- Replace the value stored at a key (Python `d[k] = v` on a present key:
the entry keeps its position). -/
def setKey {α : Type} : List (String × α) → String → α → List (String × α)
  | [], _, _ => []
  | (k0, v0) :: rest, k, v =>
    if k0 = k then (k, v) :: setKey rest k v else (k0, v0) :: setKey rest k v

/-- Python `d[k] = v`: update in place when the key exists, append otherwise. -/
def dictSet {α : Type} (m : List (String × α)) (k : String) (v : α) :
    List (String × α) :=
  if hasKey m k then setKey m k v else m ++ [(k, v)]

/-- Apply a function to the value stored at a key, if present
(Python `d[k].field = v` on a present key). -/
def modifyVal {α : Type} : List (String × α) → String → (α → α) → List (String × α)
  | [], _, _ => []
  | (k0, v0) :: rest, k, f =>
    if k0 = k then (k0, f v0) :: modifyVal rest k f
    else (k0, v0) :: modifyVal rest k f

/-- Python truthiness of a JSON value (`if data_dict:` etc.). -/
def Json.truthy : Json → Bool
  | .null => false
  | .bool b => b
  | .num n => if n = 0 then false else true
  | .str s => !s.isEmpty
  | .arr xs => !xs.isEmpty
  | .obj fs => !fs.isEmpty

/-- Python `len()` on a parsed JSON value; `none` models a `TypeError`. -/
def pyLen : Json → Option Nat
  | .arr xs => some xs.length
  | .obj fs => some fs.length
  | .str s => some s.length
  | _ => none

/-- Python `d.get(key, default)` on a JSON object (the source only calls
`.get` on dict values). -/
def Json.getD (j : Json) (k : String) (d : Json) : Json :=
  match j with
  | .obj fields =>
    match alookup fields k with
    | some v => v
    | none => d
  | _ => d

/-- `data[key]` navigation chain of `graphql_paginate`
(`for key in path_to_connection: data = data[key]`); `none` models the
`KeyError`/`TypeError` the Python raises when the path is missing. -/
def navigate : Json → List String → Option Json
  | j, [] => some j
  | .obj fields, k :: ks =>
    match alookup fields k with
    | some v => navigate v ks
    | none => none
  | _, _ :: _ => none

/-! ### A small executable JSON parser, the model of `json.loads`.
Supports null/true/false, integer numbers, strings with the common
escapes, arrays and objects; unsupported input parses to `none`
(modelling a raised `ValueError`). -/

/-- JSON insignificant whitespace. -/
def jsonWsChar (c : Char) : Bool := c = ' ' || c = '\n' || c = '\t' || c = '\r'

/-- Drop leading whitespace. -/
def skipWsChars (cs : List Char) : List Char := cs.dropWhile jsonWsChar

/-- The character `{`. -/
def lbraceChar : Char := Char.ofNat 123

/-- The character `}`. -/
def rbraceChar : Char := Char.ofNat 125

/-- JSON string escapes (the common single-character ones). -/
def unescapeChar (c : Char) : Option Char :=
  if c = '"' then some '"'
  else if c = '\\' then some '\\'
  else if c = '/' then some '/'
  else if c = 'n' then some '\n'
  else if c = 't' then some '\t'
  else if c = 'r' then some '\r'
  else none

/-- Parse the remainder of a JSON string literal (after the opening quote). -/
def parseStrAux : List Char → List Char → Option (String × List Char)
  | _, [] => none
  | acc, c :: rest =>
    if c = '"' then some (String.mk acc.reverse, rest)
    else if c = '\\' then
      match rest with
      | [] => none
      | e :: r2 =>
        match unescapeChar e with
        | some u => parseStrAux (u :: acc) r2
        | none => none
    else parseStrAux (c :: acc) rest

/-- Decimal digits to a natural number. -/
def digitsToNat (ds : List Char) : Nat :=
  ds.foldl (fun acc c => acc * 10 + (c.toNat - 48)) 0

/-- Parse an integer JSON number (floats are not modelled and parse to
`none`). -/
def parseNum (cs : List Char) : Option (Json × List Char) :=
  let p := match cs with
    | '-' :: rest => (true, rest)
    | _ => (false, cs)
  let ds := p.2.takeWhile Char.isDigit
  let rest := p.2.dropWhile Char.isDigit
  if ds.isEmpty then none
  else
    let v : Int := if p.1 then -(digitsToNat ds : Int) else (digitsToNat ds : Int)
    match rest with
    | c :: _ => if c = '.' || c = 'e' || c = 'E' then none else some (.num v, rest)
    | [] => some (.num v, [])

mutual

/-- Parse one JSON value (fuel-bounded recursion). -/
def parseVal : Nat → List Char → Option (Json × List Char)
  | 0, _ => none
  | fuel + 1, cs =>
    match skipWsChars cs with
    | [] => none
    | c :: rest =>
      if c = 'n' then
        match rest with
        | 'u' :: 'l' :: 'l' :: r => some (.null, r)
        | _ => none
      else if c = 't' then
        match rest with
        | 'r' :: 'u' :: 'e' :: r => some (.bool true, r)
        | _ => none
      else if c = 'f' then
        match rest with
        | 'a' :: 'l' :: 's' :: 'e' :: r => some (.bool false, r)
        | _ => none
      else if c = '"' then
        match parseStrAux [] rest with
        | some (s, r) => some (.str s, r)
        | none => none
      else if c = '[' then
        match skipWsChars rest with
        | ']' :: r => some (.arr [], r)
        | cs2 =>
          match parseItems fuel cs2 with
          | some (xs, r) => some (.arr xs, r)
          | none => none
      else if c = lbraceChar then
        match skipWsChars rest with
        | c2 :: r =>
          if c2 = rbraceChar then some (.obj [], r)
          else
            match parseMembers fuel (c2 :: r) with
            | some (fs, r2) => some (.obj fs, r2)
            | none => none
        | [] => none
      else parseNum (c :: rest)

/-- Parse the elements of a nonempty JSON array body. -/
def parseItems : Nat → List Char → Option (List Json × List Char)
  | 0, _ => none
  | fuel + 1, cs =>
    match parseVal fuel cs with
    | none => none
    | some (x, r) =>
      match skipWsChars r with
      | ',' :: r2 =>
        match parseItems fuel r2 with
        | some (xs, r3) => some (x :: xs, r3)
        | none => none
      | ']' :: r2 => some ([x], r2)
      | _ => none

/-- Parse the members of a nonempty JSON object body. -/
def parseMembers : Nat → List Char → Option (List (String × Json) × List Char)
  | 0, _ => none
  | fuel + 1, cs =>
    match skipWsChars cs with
    | '"' :: r =>
      match parseStrAux [] r with
      | none => none
      | some (k, r2) =>
        match skipWsChars r2 with
        | ':' :: r3 =>
          match parseVal fuel r3 with
          | none => none
          | some (v, r4) =>
            match skipWsChars r4 with
            | ',' :: r5 =>
              match parseMembers fuel r5 with
              | some (fs, r6) => some ((k, v) :: fs, r6)
              | none => none
            | c5 :: r5 => if c5 = rbraceChar then some ([(k, v)], r5) else none
            | [] => none
        | _ => none
    | _ => none

end

/-- `json.loads`: parse a complete JSON document; `none` models a raised
`ValueError`. -/
def json_loads (s : String) : Option Json :=
  match parseVal (2 * s.length + 4) s.data with
  | some (j, r) => if (skipWsChars r).isEmpty then some j else none
  | none => none

/-! ### Constants (`constants.py`). -/

/-- `MAX_CONTRIBUTOR_RETRIES` from `constants.py`. -/
def MAX_CONTRIBUTOR_RETRIES : Nat := 20

/-- `CONTRIBUTOR_RETRY_SLEEP_SECONDS` from `constants.py`. -/
def CONTRIBUTOR_RETRY_SLEEP_SECONDS : Nat := 10

/-- `RATE_LIMIT_SLEEP_SECONDS` from `constants.py`. -/
def RATE_LIMIT_SLEEP_SECONDS : Nat := 60

/-- `EXCLUDED_REPO_PREFIXES` from `constants.py`. -/
def EXCLUDED_REPO_PREFIXES : List String := ["slides-", "course-"]

/-! ### `GitHubClient.graphql_paginate` (`github_client.py`, lines 54-95).

The GraphQL provider is modelled as a stateful response function: given its
current state and the `cursor` variable of the request, it returns either a
`RateLimitExceededException` signal or the raw query result, together with
its next state.  The generator's observable behaviour is collected in a
trace: the pages it yields, the `cursor` value of every request it issues
(in order), and how many rate-limit sleeps it performs. -/

/-- One provider response: rate-limit exhaustion or a raw GraphQL result. -/
inductive GqlOutcome where
  | rateLimited
  | ok (result : Json)

/-- Observable behaviour of one `graphql_paginate` run. -/
structure PagTrace where
  pages : List Json
  requests : List Json
  sleeps : Nat

/-- Result of running `graphql_paginate` to completion: normal termination,
a raised `KeyError` while navigating `path_to_connection`, or fuel
exhaustion (standing in for divergence). -/
inductive PagOutcome where
  | done (t : PagTrace)
  | pathError (t : PagTrace)
  | outOfFuel

/-- The `while has_next_page` loop of `graphql_paginate`.  Accumulators hold
yielded pages and issued request cursors in reverse order.  Per iteration:
issue the request with the current cursor; on `RateLimitExceededException`
sleep and retry with the same cursor (`continue`); otherwise navigate to the
connection, yield the full result, and read
`pageInfo.get("hasNextPage", False)` / `pageInfo.get("endCursor")`. -/
def graphql_paginate_go {σ : Type} (provider : σ → Json → GqlOutcome × σ)
    (path : List String) :
    Nat → σ → Json → List Json → List Json → Nat → PagOutcome
  | 0, _, _, _, _, _ => .outOfFuel
  | fuel + 1, s, cursor, pages, reqs, sleeps =>
    match provider s cursor with
    | (.rateLimited, s2) =>
      graphql_paginate_go provider path fuel s2 cursor pages (cursor :: reqs) (sleeps + 1)
    | (.ok result, s2) =>
      match navigate result path with
      | none => .pathError ⟨pages.reverse, (cursor :: reqs).reverse, sleeps⟩
      | some data =>
        let pageInfo := data.getD "pageInfo" (.obj [])
        let hasNext := (pageInfo.getD "hasNextPage" (.bool false)).truthy
        let cursor2 := pageInfo.getD "endCursor" .null
        if hasNext then
          graphql_paginate_go provider path fuel s2 cursor2 (result :: pages)
            (cursor :: reqs) sleeps
        else .done ⟨(result :: pages).reverse, (cursor :: reqs).reverse, sleeps⟩

/-- `graphql_paginate`: cursor starts at `None` (`Json.null`). -/
def graphql_paginate {σ : Type} (provider : σ → Json → GqlOutcome × σ)
    (path : List String) (fuel : Nat) (s0 : σ) : PagOutcome :=
  graphql_paginate_go provider path fuel s0 .null [] [] 0

/-- A scripted provider stub: answers requests with a fixed list of
outcomes, in order, regardless of the cursor; an exhausted script keeps
rate-limiting (the run would stall, never reached under sufficient script). -/
def scriptProvider (s : List GqlOutcome) (_cursor : Json) :
    GqlOutcome × List GqlOutcome :=
  match s with
  | [] => (.rateLimited, [])
  | o :: rest => (o, rest)

/-! ### Chain stubs: a provider returning a finite chain of pages. -/

/-- One stub page: the extra connection fields (e.g. `nodes`), and its
pagination metadata — `some (hasNextPage, endCursor)`, or `none` when the
`pageInfo` key is absent from the connection. -/
structure ChainPage where
  payload : List (String × Json)
  pageInfo : Option (Bool × String)

/-- The connection object of a stub page. -/
def mkConn (p : ChainPage) : Json :=
  match p.pageInfo with
  | some (h, c) =>
    .obj (("pageInfo", .obj [("hasNextPage", .bool h), ("endCursor", .str c)]) :: p.payload)
  | none => .obj p.payload

/-- Wrap a connection at the given path (the stub's raw query result). -/
def nestPath : List String → Json → Json
  | [], j => j
  | k :: ks, j => .obj [(k, nestPath ks j)]

/-- The raw result a chain stub returns for one page. -/
def mkResult (path : List String) (p : ChainPage) : Json :=
  nestPath path (mkConn p)

/-- The cursor the client adopts after consuming a page. -/
def nextCursor (p : ChainPage) : Json :=
  match p.pageInfo with
  | some (_, c) => .str c
  | none => .null

/-- Whether the client continues after this page (`hasNextPage` truthy). -/
def pageHasNext (p : ChainPage) : Bool :=
  match p.pageInfo with
  | some (h, _) => h
  | none => false

/-- A page whose payload does not shadow the absent `pageInfo` key. -/
def pageClean (p : ChainPage) : Bool :=
  match p.pageInfo with
  | some _ => true
  | none => !(hasKey p.payload "pageInfo")

/-- Well-formed chain: every page but the last has `hasNextPage = true`,
and the last page has `hasNextPage = false` or no pagination metadata at
all. -/
def chainWF : List ChainPage → Bool
  | [] => true
  | [p] => pageClean p && !(pageHasNext p)
  | p :: rest => pageHasNext p && chainWF rest

/-- The response script of a chain stub: for each page, first its
rate-limit delays, then the page result. -/
def chainScript (path : List String) : List (Nat × ChainPage) → List GqlOutcome
  | [] => []
  | (d, p) :: rest =>
    List.replicate d .rateLimited ++ .ok (mkResult path p) :: chainScript path rest

/-- The pages the chain stub serves, in order. -/
def chainPages (path : List String) : List ChainPage → List Json
  | [] => []
  | p :: rest => mkResult path p :: chainPages path rest

/-- The request cursors of a run over a chain stub: each page's request is
issued `d + 1` times (once per rate-limit signal, then once successfully)
with the same cursor, and the next page is requested with this page's
`endCursor`. -/
def chainReqs (c0 : Json) : List (Nat × ChainPage) → List Json
  | [] => []
  | (d, p) :: rest => List.replicate (d + 1) c0 ++ chainReqs (nextCursor p) rest

/-- Total number of rate-limit sleeps of a chain run. -/
def chainSleeps : List (Nat × ChainPage) → Nat
  | [] => 0
  | (d, _) :: rest => d + chainSleeps rest

/-- Number of loop iterations of a chain run (enough fuel). -/
def chainFuel : List (Nat × ChainPage) → Nat
  | [] => 0
  | (d, _) :: rest => d + 1 + chainFuel rest

/-- Zero-delay instrumentation of a chain: the same pages with no
rate-limit signals. -/
def noDelays (zps : List (Nat × ChainPage)) : List (Nat × ChainPage) :=
  zps.map (fun z => (0, z.2))

/-! ### `_fetch_all_contributors` (`fetchers/repository.py`, lines 20-78).

The REST provider is modelled as a function from (pass index, url) to a
response; pass 0 is the initial pass over all repositories, pass `k ≥ 1` is
the `k`-th retry pass over the still-pending ones.  `rest_request` returns
`(status, data)` where `data` is the raw response body string (or `None`). -/

/-- One repository dict as iterated by the function (only `repo["name"]`
is accessed). -/
structure RepoNode where
  name : String
deriving DecidableEq

/-- A `(status, data)` pair as returned by `GitHubClient.rest_request`. -/
structure RestResp where
  status : Nat
  body : Option String
deriving DecidableEq

/-- The contributor-statistics url for one repository. -/
def contribUrl (org repo_name : String) : String :=
  "/repos/" ++ org ++ "/" ++ repo_name ++ "/stats/contributors"

/-- Python truthiness of the response body (`if data`). -/
def bodyTruthy : Option String → Bool
  | none => false
  | some s => !s.isEmpty

/-- `len(data)` on the raw body string (`0` unreachable: only called on
truthy bodies). -/
def bodyLen : Option String → Nat
  | none => 0
  | some s => s.length

/-- What happens to one unit in one pass: resolved to a count, or pending. -/
inductive UnitStep where
  | resolved (v : Nat)
  | pend
deriving DecidableEq

/-- Initial-pass handling of one response (lines 35-46):
`data_dict = json.loads(data) if data else None` — a body that fails to
parse, or a `len()` on an unsized value, raises (modelled as `.error ()`);
then `status == 200 and data_dict` resolves to `len(data_dict)`,
`status == 202` marks the unit pending, anything else resolves to `0`. -/
def classifyInitial (resp : RestResp) : Except Unit UnitStep :=
  match (if bodyTruthy resp.body then
           match resp.body with
           | some s => (json_loads s).map some
           | none => some none
         else some none : Option (Option Json)) with
  | none => .error ()
  | some data_dict =>
    if resp.status = 200 && (match data_dict with
                             | some j => j.truthy
                             | none => false) then
      match data_dict with
      | some j =>
        match pyLen j with
        | some n => .ok (.resolved n)
        | none => .error ()
      | none => .error ()
    else if resp.status = 202 then .ok .pend
    else .ok (.resolved 0)

/-- Retry-pass handling of one response (lines 63-69): `status == 200 and
data` resolves to `len(data)` — the length of the RAW BODY STRING, the
body is not parsed on retry passes; `status == 202` stays pending;
anything else resolves to `0`. -/
def classifyRetry (resp : RestResp) : UnitStep :=
  if resp.status = 200 && bodyTruthy resp.body then .resolved (bodyLen resp.body)
  else if resp.status = 202 then .pend
  else .resolved 0

/-- The initial `for repo in repos` loop (lines 32-46), threading the
contributors map and the pending list. -/
def initial_pass (rest : Nat → String → RestResp) (org : String) :
    List RepoNode → List (String × Nat) → List String →
    Except Unit (List (String × Nat) × List String)
  | [], m, pending => .ok (m, pending)
  | r :: rs, m, pending =>
    match classifyInitial (rest 0 (contribUrl org r.name)) with
    | .error () => .error ()
    | .ok (.resolved v) => initial_pass rest org rs (dictSet m r.name v) pending
    | .ok .pend => initial_pass rest org rs m (pending ++ [r.name])

/-- One retry pass: the `for repo_name in pending_repos` loop
(lines 58-71), accumulating the still-pending list. -/
def retry_pass (rest : Nat → String → RestResp) (org : String) (passIdx : Nat) :
    List String → List (String × Nat) → List String →
    List (String × Nat) × List String
  | [], m, still => (m, still)
  | n :: ns, m, still =>
    match classifyRetry (rest passIdx (contribUrl org n)) with
    | .resolved v => retry_pass rest org passIdx ns (dictSet m n v) still
    | .pend => retry_pass rest org passIdx ns m (still ++ [n])

/-- The `while pending_repos and retries_remaining > 0` loop
(lines 48-72).  One shared sleep per pass (counted), then a batched retry
pass over all still-pending units. -/
def retry_loop (rest : Nat → String → RestResp) (org : String) :
    Nat → Nat → List String → List (String × Nat) → Nat →
    List (String × Nat) × List String × Nat
  | 0, _, pending, m, sleeps => (m, pending, sleeps)
  | retries + 1, passIdx, pending, m, sleeps =>
    if pending.isEmpty then (m, pending, sleeps)
    else
      let st := retry_pass rest org passIdx pending m []
      retry_loop rest org retries (passIdx + 1) st.2 st.1 (sleeps + 1)

/-- The final timeout loop (lines 74-76): still-pending units default to 0. -/
def finalize_pending : List String → List (String × Nat) → List (String × Nat)
  | [], m => m
  | n :: ns, m => finalize_pending ns (dictSet m n 0)

/-- `_fetch_all_contributors`: initial pass, bounded batched retry loop
(budget `MAX_CONTRIBUTOR_RETRIES`), then timeout defaults.  Returns the
contributors map together with the number of sleep intervals performed. -/
def fetch_all_contributors (rest : Nat → String → RestResp) (org : String)
    (repos : List RepoNode) : Except Unit (List (String × Nat) × Nat) :=
  match initial_pass rest org repos [] [] with
  | .error () => .error ()
  | .ok (m, pending) =>
    let fin := retry_loop rest org MAX_CONTRIBUTOR_RETRIES 1 pending m 0
    .ok (finalize_pending fin.2.1 fin.1, fin.2.2)

/-- Bool-valued success test for `classifyInitial` (used as a decidable
hypothesis: the response neither fails to parse nor defeats `len()`). -/
def classifyOk (e : Except Unit UnitStep) : Bool :=
  match e with
  | .ok _ => true
  | .error _ => false

/-! ### Models (`models.py`) and the filtering policy (`fetchers/utils.py`). -/

/-- `Config` from `models.py`. -/
structure Config where
  organization : String := ""
  include_forks : Bool := false
  include_archived : Bool := false
  since : Option String := none
deriving DecidableEq

/-- Whether the first character list is an initial segment of the second
(executable model of Python `str.startswith` over the characters). -/
def listIsInit : List Char → List Char → Bool
  | [], _ => true
  | _ :: _, [] => false
  | a :: as, b :: bs => a = b && listIsInit as bs

/-- Python `repo_name.startswith(p)` over the characters of the strings. -/
def strStartsWith (s p : String) : Bool := listIsInit p.data s.data

/-- `should_exclude_repo` (`fetchers/utils.py`, lines 35-48).  The
process-lifetime cached exclusion list (`load_excluded_repos()`) is passed
as the `excluded` parameter; the `config` argument is accepted exactly as
in the source, which never reads it.  The name is excluded when it is in
the cached list, or starts with one of the constant excluded name starts
(`repo_name.startswith(EXCLUDED_REPO_PREFIXES)`). -/
def should_exclude_repo (excluded : List String) (repo_name : String)
    (_config : Config) : Bool :=
  excluded.contains repo_name
    || EXCLUDED_REPO_PREFIXES.any (fun p => strStartsWith repo_name p)

/-- One repository node as consumed by the filter of `query_repo_names`
(lines 88-103): `repo.get("isArchived", False)`, `repo.get("isFork",
False)` and `repo["name"]`. -/
structure RepoFlags where
  name : String
  isArchived : Bool
  isFork : Bool
deriving DecidableEq

/-- The per-node filtering policy of `query_repo_names` (lines 93-101,
identical in `add_repositories_to_result`): `continue` (exclude) when
archived and archived repos are not included, when a fork and forks are
not included, or when `should_exclude_repo` says so. -/
def repo_filtered_out (excluded : List String) (config : Config)
    (node : RepoFlags) : Bool :=
  if node.isArchived && !config.include_archived then true
  else if node.isFork && !config.include_forks then true
  else should_exclude_repo excluded node.name config

/-- `RepositoryResult` from `models.py`.  Integer counters are `Int`,
float-valued derived metrics are modelled as `Rat` (they are only stored,
never computed, in the embedded steps). -/
structure RepositoryResult where
  repository_name : String := ""
  repo_name_with_owner : String := ""
  license_name : String := ""
  topics : List String := []
  projects_v2_count : Int := 0
  discussions_count : Int := 0
  forks_count : Int := 0
  total_issues_count : Int := 0
  open_issues_count : Int := 0
  closed_issues_count : Int := 0
  total_pull_requests_count : Int := 0
  open_pull_requests_count : Int := 0
  closed_pull_requests_count : Int := 0
  merged_pull_requests_count : Int := 0
  watchers_count : Int := 0
  stars_count : Int := 0
  collaborators_count : Int := 0
  total_download_count : Int := 0
  monthly_download_count : Int := 0
  weekly_download_count : Int := 0
  daily_download_count : Int := 0
  contributors_count : Int := 0
  conda_total_downloads : Int := 0
  conda_monthly_downloads : Int := 0
  discussions_enabled : Bool := false
  projects_enabled : Bool := false
  issues_enabled : Bool := false
  open_issues_average_age : Rat := 0
  open_issues_median_age : Rat := 0
  closed_issues_average_age : Rat := 0
  closed_issues_median_age : Rat := 0
  issues_response_average_age : Rat := 0
  issues_response_median_age : Rat := 0
deriving DecidableEq

/-- `Meta` from `models.py`. -/
structure Meta where
  created_at : String := ""
deriving DecidableEq

/-- `OrgInfo` from `models.py`. -/
structure OrgInfo where
  login : String := ""
  name : String := ""
  description : Option String := none
  created_at : String := ""
  repositories_count : Int := 0
deriving DecidableEq

/-- `Result` from `models.py`; `repositories` is the keyed record set
(dict from repository name to record). -/
structure Result where
  meta : Meta := {}
  org_info : OrgInfo := {}
  repositories : List (String × RepositoryResult) := []
deriving DecidableEq

/-- The key set of the Report's record set. -/
def reposKeys (res : Result) : List String := res.repositories.map Prod.fst

/-- `repo_name in result.repositories`. -/
def containsRec (res : Result) (n : String) : Bool := hasKey res.repositories n

/-- `result.repositories.get(repo_name)` as an Option. -/
def lookupRec (res : Result) (n : String) : Option RepositoryResult :=
  alookup res.repositories n

/-- Mutate the record stored under a (present) name in place. -/
def modifyRec (res : Result) (n : String) (f : RepositoryResult → RepositoryResult) :
    Result :=
  { res with repositories := modifyVal res.repositories n f }

/-! ### Record-update loops of the lookup-only enrichment steps. -/

/-- One row of `_get_issue_and_pr_data` as consumed by
`add_issue_and_pr_data` (`fetchers/issues.py`, lines 94-122): the node's
name and the seven `totalCount` values it reads. -/
structure IssueRow where
  name : String
  totalIssues : Int
  closedIssues : Int
  openIssues : Int
  openPullRequests : Int
  totalPullRequests : Int
  closedPullRequests : Int
  mergedPullRequests : Int
deriving DecidableEq

/-- `add_issue_and_pr_data` record loop (`fetchers/issues.py`, lines
94-124); the `rows` parameter is the list collected from the paginated
query.  Excluded names are skipped, names absent from the Report are
skipped, otherwise the seven counters are assigned. -/
def add_issue_and_pr_data (excluded : List String) (config : Config) :
    List IssueRow → Result → Result
  | [], res => res
  | row :: rest, res =>
    if should_exclude_repo excluded row.name config then
      add_issue_and_pr_data excluded config rest res
    else if containsRec res row.name then
      add_issue_and_pr_data excluded config rest (modifyRec res row.name (fun r =>
        { r with
          total_issues_count := row.totalIssues
          open_issues_count := row.openIssues
          closed_issues_count := row.closedIssues
          total_pull_requests_count := row.totalPullRequests
          open_pull_requests_count := row.openPullRequests
          closed_pull_requests_count := row.closedPullRequests
          merged_pull_requests_count := row.mergedPullRequests }))
    else add_issue_and_pr_data excluded config rest res

/-- One row of `_query_for_discussions` as consumed by
`add_discussion_data` (`fetchers/discussions.py`, lines 69-78): the node's
name and `repo.get("discussions", {}).get("totalCount", 0)`. -/
structure DiscussionRow where
  name : String
  discussionsTotalCount : Int
deriving DecidableEq

/-- `add_discussion_data` record loop (`fetchers/discussions.py`, lines
54-80). -/
def add_discussion_data (excluded : List String) (config : Config) :
    List DiscussionRow → Result → Result
  | [], res => res
  | row :: rest, res =>
    if should_exclude_repo excluded row.name config then
      add_discussion_data excluded config rest res
    else if containsRec res row.name then
      add_discussion_data excluded config rest (modifyRec res row.name (fun r =>
        { r with discussions_count := row.discussionsTotalCount }))
    else add_discussion_data excluded config rest res

/-- One processed PePy project as consumed by `add_downloads_pepy`
(`fetchers/downloads_pepy.py`, lines 182-199): the repo name and the four
processed download numbers (`_process_download_numbers` output). -/
structure PepyProcessed where
  repo_name : String
  total : Int
  monthly : Int
  weekly : Int
  daily : Int
deriving DecidableEq

/-- `add_downloads_pepy` record loop (`fetchers/downloads_pepy.py`, lines
182-201).  Names absent from the Report are skipped; the four download
counters are ASSIGNED (overwrite, not add-in-place). -/
def add_downloads_pepy : List PepyProcessed → Result → Result
  | [], res => res
  | p :: rest, res =>
    if containsRec res p.repo_name then
      add_downloads_pepy rest (modifyRec res p.repo_name (fun r =>
        { r with
          total_download_count := p.total
          monthly_download_count := p.monthly
          weekly_download_count := p.weekly
          daily_download_count := p.daily }))
    else add_downloads_pepy rest res

/-- Legacy package-name remapping of `add_conda_data` (lines 163-165,
174-176): `pkg_name = legacy_packages_map.get(pkg_name, pkg_name)`. -/
def legacyMap (legacy : List (String × String)) (pkg : String) : String :=
  match alookup legacy pkg with
  | some v => v
  | none => pkg

/-- The total-downloads loop of `add_conda_data`
(`fetchers/fetch_parquet.py`, lines 161-170): legacy names are remapped,
absent names skipped, and the contribution is ADDED in place
(`+= total`). -/
def conda_totals_loop (legacy : List (String × String)) :
    List (String × Int) → Result → Result
  | [], res => res
  | (pkg, total) :: rest, res =>
    let pkg2 := legacyMap legacy pkg
    if containsRec res pkg2 then
      conda_totals_loop legacy rest (modifyRec res pkg2 (fun r =>
        { r with conda_total_downloads := r.conda_total_downloads + total }))
    else conda_totals_loop legacy rest res

/-- The monthly-downloads loop of `add_conda_data`
(`fetchers/fetch_parquet.py`, lines 172-181): same shape, `+= total` into
`conda_monthly_downloads`. -/
def conda_monthly_loop (legacy : List (String × String)) :
    List (String × Int) → Result → Result
  | [], res => res
  | (pkg, total) :: rest, res =>
    let pkg2 := legacyMap legacy pkg
    if containsRec res pkg2 then
      conda_monthly_loop legacy rest (modifyRec res pkg2 (fun r =>
        { r with conda_monthly_downloads := r.conda_monthly_downloads + total }))
    else conda_monthly_loop legacy rest res

/-- `add_conda_data` record-update part (`fetchers/fetch_parquet.py`,
lines 161-183): the two accumulation loops over the DuckDB query results. -/
def add_conda_data (legacy : List (String × String))
    (totals monthlys : List (String × Int)) (res : Result) : Result :=
  conda_monthly_loop legacy monthlys (conda_totals_loop legacy totals res)

/-! ### Configuration checks of `main` (`main.py`, lines 98-153). -/

/-- The `organization` entry of `config.yml`: absent, a single string, or
a list of strings. -/
inductive YamlOrg where
  | missing
  | one (s : String)
  | many (l : List String)
deriving DecidableEq

/-- The fields `main` reads from `config.yml`. -/
structure YamlConfig where
  organization : YamlOrg := .missing
  since : Option String := none
  includeForks : Bool := false
  includeArchived : Bool := false
deriving DecidableEq

/-- Python truthiness of `os.getenv` results (`not graphql_token`):
`None` and the empty string are falsy. -/
def truthyStr : Option String → Bool
  | none => false
  | some s => !s.isEmpty

/-- Python truthiness of the yaml `organization` value (default `[]`). -/
def orgTruthy : YamlOrg → Bool
  | .missing => false
  | .one s => !s.isEmpty
  | .many l => !l.isEmpty

/-- The organization list after the `isinstance(..., str)` wrapping
(lines 132-133). -/
def orgList : YamlOrg → List String
  | .missing => []
  | .one s => [s]
  | .many l => l

/-- How a `main` run ends, as far as configuration checking goes:
`ciSkip` is the early `return` when a secret is missing (process exit
status 0, no report written); `exitErr c` is `sys.exit(c)`; `proceed cfgs`
means the run continues into network fetching with the given per-org
configurations. -/
inductive MainOutcome where
  | ciSkip
  | exitErr (code : Nat)
  | proceed (configs : List Config)
deriving DecidableEq

/-- The process exit status each outcome produces (an early `return` from
`main` exits the interpreter with status 0). -/
def mainExitCode : MainOutcome → Nat
  | .ciSkip => 0
  | .exitErr c => c
  | .proceed _ => 0

/-- The configuration-checking prefix of `main` (`main.py`, lines
107-153), before any network request: missing `GRAPHQL_TOKEN` or
`PEPY_API_KEY` logs a warning and returns (CI mode); then a missing
organization (neither `ORGANIZATION_NAME` nor a yaml `organization`)
calls `sys.exit(1)`; otherwise one `Config` per organization is built.
`default_since` stands for the computed `now - DEFAULT_DAYS_LOOKBACK`
timestamp, and `fromisoformat(...).isoformat()` round-tripping of an
explicit `since` is modelled as the identity. -/
def main_config_check (env : String → Option String) (yaml : YamlConfig)
    (default_since : String) : MainOutcome :=
  let graphql_token := env "GRAPHQL_TOKEN"
  let pepy_api_key := env "PEPY_API_KEY"
  if !truthyStr graphql_token || !truthyStr pepy_api_key then .ciSkip
  else
    let env_organization_name := env "ORGANIZATION_NAME"
    if !truthyStr env_organization_name && !orgTruthy yaml.organization then
      .exitErr 1
    else
      let since := match yaml.since with
        | some s => if !s.isEmpty then s else default_since
        | none => default_since
      .proceed ((orgList yaml.organization).map (fun org_name =>
        { organization :=
            if truthyStr env_organization_name then
              env_organization_name.getD ""
            else org_name
          include_forks := yaml.includeForks
          include_archived := yaml.includeArchived
          since := some since }))

/-! ## Lemmas about the association-list dict model. -/

theorem hasKey_iff_mem_keys {α : Type} (m : List (String × α)) (k : String) :
    hasKey m k = true ↔ k ∈ m.map Prod.fst := by
  induction m with
  | nil => simp [hasKey]
  | cons hd tl ih =>
    obtain ⟨k0, v0⟩ := hd
    simp only [hasKey, List.map_cons, List.mem_cons]
    by_cases he : k0 = k
    · simp [he]
    · rw [if_neg he, ih]
      constructor
      · exact Or.inr
      · rintro (rfl | hh)
        · exact absurd rfl he
        · exact hh

theorem alookup_eq_none_of_hasKey_false {α : Type} (m : List (String × α))
    (k : String) (h : hasKey m k = false) : alookup m k = none := by
  induction m with
  | nil => simp [alookup]
  | cons hd tl ih =>
    obtain ⟨k0, v0⟩ := hd
    simp only [hasKey] at h
    simp only [alookup]
    split
    · next he => rw [if_pos he] at h; exact absurd h (by simp)
    · next he => exact ih (by rwa [if_neg he] at h)

theorem hasKey_of_alookup_some {α : Type} (m : List (String × α)) (k : String)
    (v : α) (h : alookup m k = some v) : hasKey m k = true := by
  by_cases hk : hasKey m k = true
  · exact hk
  · rw [alookup_eq_none_of_hasKey_false m k (by simpa using hk)] at h
    cases h

theorem alookup_setKey_self {α : Type} (m : List (String × α)) (k : String)
    (v : α) (h : hasKey m k = true) : alookup (setKey m k v) k = some v := by
  induction m with
  | nil => simp [hasKey] at h
  | cons hd tl ih =>
    obtain ⟨k0, v0⟩ := hd
    simp only [hasKey] at h
    simp only [setKey]
    split
    · next he => simp [alookup]
    · next he =>
      simp only [alookup, if_neg he]
      exact ih (by rwa [if_neg he] at h)

theorem alookup_setKey_ne {α : Type} (m : List (String × α)) (k k2 : String)
    (v : α) (h : k2 ≠ k) : alookup (setKey m k v) k2 = alookup m k2 := by
  induction m with
  | nil => simp [setKey]
  | cons hd tl ih =>
    obtain ⟨k0, v0⟩ := hd
    simp only [setKey]
    split
    · next he =>
      subst he
      simp only [alookup, if_neg (Ne.symm h)]
      exact ih
    · next he =>
      simp only [alookup]
      split
      · rfl
      · exact ih

theorem alookup_append_left {α : Type} (m l : List (String × α)) (k : String)
    (v : α) (h : alookup m k = some v) : alookup (m ++ l) k = some v := by
  induction m with
  | nil => simp [alookup] at h
  | cons hd tl ih =>
    obtain ⟨k0, v0⟩ := hd
    simp only [alookup] at h ⊢
    split
    · next he => rwa [if_pos he] at h
    · next he => exact ih (by rwa [if_neg he] at h)

theorem alookup_append_right {α : Type} (m l : List (String × α)) (k : String)
    (h : alookup m k = none) : alookup (m ++ l) k = alookup l k := by
  induction m with
  | nil => simp
  | cons hd tl ih =>
    obtain ⟨k0, v0⟩ := hd
    simp only [alookup] at h ⊢
    split
    · next he => rw [if_pos he] at h; cases h
    · next he => exact ih (by rwa [if_neg he] at h)

theorem alookup_dictSet_self {α : Type} (m : List (String × α)) (k : String)
    (v : α) : alookup (dictSet m k v) k = some v := by
  unfold dictSet
  split
  · next h => exact alookup_setKey_self m k v h
  · next h =>
    rw [alookup_append_right m [(k, v)] k
      (alookup_eq_none_of_hasKey_false m k (by simpa using h))]
    simp [alookup]

theorem alookup_dictSet_ne {α : Type} (m : List (String × α)) (k k2 : String)
    (v : α) (h : k2 ≠ k) : alookup (dictSet m k v) k2 = alookup m k2 := by
  unfold dictSet
  split
  · exact alookup_setKey_ne m k k2 v h
  · cases hm : alookup m k2 with
    | some w => exact alookup_append_left m [(k, v)] k2 w hm
    | none =>
      rw [alookup_append_right m [(k, v)] k2 hm]
      simp [alookup, Ne.symm h]


theorem keys_setKey {α : Type} (m : List (String × α)) (k : String) (v : α) :
    (setKey m k v).map Prod.fst = m.map Prod.fst := by
  induction m with
  | nil => rfl
  | cons hd tl ih =>
    obtain ⟨k0, v0⟩ := hd
    simp only [setKey]
    split
    · next he => simp only [List.map_cons, ih, he]
    · next he => simp only [List.map_cons, ih]

theorem hasKey_dictSet {α : Type} (m : List (String × α)) (k k2 : String)
    (v : α) : hasKey (dictSet m k v) k2 = true ↔ k2 = k ∨ hasKey m k2 = true := by
  rw [hasKey_iff_mem_keys, hasKey_iff_mem_keys]
  unfold dictSet
  split
  · next h =>
    rw [keys_setKey m k v]
    constructor
    · exact fun hh => Or.inr hh
    · rintro (rfl | hh)
      · rw [← hasKey_iff_mem_keys]; exact h
      · exact hh
  · next h => simp [or_comm]

theorem keys_modifyVal {α : Type} (m : List (String × α)) (k : String)
    (f : α → α) : (modifyVal m k f).map Prod.fst = m.map Prod.fst := by
  induction m with
  | nil => rfl
  | cons hd tl ih =>
    obtain ⟨k0, v0⟩ := hd
    simp only [modifyVal]
    split <;> simp only [List.map_cons, ih]

theorem hasKey_modifyVal {α : Type} (m : List (String × α)) (k k2 : String)
    (f : α → α) : hasKey (modifyVal m k f) k2 = hasKey m k2 := by
  induction m with
  | nil => rfl
  | cons hd tl ih =>
    obtain ⟨k0, v0⟩ := hd
    simp only [modifyVal]
    split
    · next he => simp only [hasKey, ih]
    · next he => simp only [hasKey, ih]

theorem alookup_modifyVal_self {α : Type} (m : List (String × α)) (k : String)
    (f : α → α) : alookup (modifyVal m k f) k = (alookup m k).map f := by
  induction m with
  | nil => rfl
  | cons hd tl ih =>
    obtain ⟨k0, v0⟩ := hd
    simp only [modifyVal]
    split
    · next he => simp [alookup, he]
    · next he => simp only [alookup, if_neg he]; exact ih

theorem alookup_modifyVal_ne {α : Type} (m : List (String × α)) (k k2 : String)
    (f : α → α) (h : k2 ≠ k) :
    alookup (modifyVal m k f) k2 = alookup m k2 := by
  induction m with
  | nil => rfl
  | cons hd tl ih =>
    obtain ⟨k0, v0⟩ := hd
    simp only [modifyVal]
    split
    · next he =>
      subst he
      simp only [alookup, if_neg (fun hh : k0 = k2 => h hh.symm)]
      exact ih
    · next he => simp only [alookup]; split <;> [rfl; exact ih]

theorem modifyVal_of_hasKey_false {α : Type} (m : List (String × α))
    (k : String) (f : α → α) (h : hasKey m k = false) :
    modifyVal m k f = m := by
  induction m with
  | nil => rfl
  | cons hd tl ih =>
    obtain ⟨k0, v0⟩ := hd
    simp only [hasKey] at h
    simp only [modifyVal]
    split
    · next he => rw [if_pos he] at h; exact absurd h (by simp)
    · next he => rw [ih (by rwa [if_neg he] at h)]

/-! ## Lemmas about `graphql_paginate` over chain stubs. -/

theorem replicate_append_cons {α : Type} (n : Nat) (a : α) (l : List α) :
    List.replicate n a ++ (a :: l) = a :: (List.replicate n a ++ l) := by
  induction n with
  | zero => rfl
  | succ m ih => simp only [List.replicate_succ, List.cons_append, ih]

theorem replicate_snoc {α : Type} (n : Nat) (a : α) :
    List.replicate n a ++ [a] = List.replicate (n + 1) a := by
  have := replicate_append_cons n a ([] : List α)
  simpa [List.replicate_succ] using this

theorem navigate_nest (path : List String) (j : Json) :
    navigate (nestPath path j) path = some j := by
  induction path with
  | nil => cases j <;> rfl
  | cons k ks ih =>
    simp only [nestPath, navigate, alookup, if_pos rfl]
    exact ih

theorem navigate_mkResult (path : List String) (p : ChainPage) :
    navigate (mkResult path p) path = some (mkConn p) :=
  navigate_nest path (mkConn p)

theorem paginate_go_rl (path : List String) (fuel : Nat)
    (tail : List GqlOutcome) (c0 : Json) (pages reqs : List Json)
    (sleeps : Nat) :
    graphql_paginate_go scriptProvider path (fuel + 1)
      (.rateLimited :: tail) c0 pages reqs sleeps
    = graphql_paginate_go scriptProvider path fuel tail c0 pages
        (c0 :: reqs) (sleeps + 1) := rfl

theorem paginate_go_ok (path : List String) (r : Json) (fuel : Nat)
    (tail : List GqlOutcome) (c0 : Json) (pages reqs : List Json)
    (sleeps : Nat) :
    graphql_paginate_go scriptProvider path (fuel + 1) (.ok r :: tail) c0
      pages reqs sleeps
    = match navigate r path with
      | none => .pathError ⟨pages.reverse, (c0 :: reqs).reverse, sleeps⟩
      | some data =>
        if ((data.getD "pageInfo" (.obj [])).getD "hasNextPage" (.bool false)).truthy then
          graphql_paginate_go scriptProvider path fuel tail
            ((data.getD "pageInfo" (.obj [])).getD "endCursor" .null)
            (r :: pages) (c0 :: reqs) sleeps
        else .done ⟨(r :: pages).reverse, (c0 :: reqs).reverse, sleeps⟩ := rfl

theorem paginate_go_ok_page (path : List String) (p : ChainPage)
    (hp : pageClean p = true) (fuel : Nat) (tail : List GqlOutcome)
    (c0 : Json) (pages reqs : List Json) (sleeps : Nat) :
    graphql_paginate_go scriptProvider path (fuel + 1)
      (.ok (mkResult path p) :: tail) c0 pages reqs sleeps
    = if pageHasNext p then
        graphql_paginate_go scriptProvider path fuel tail (nextCursor p)
          (mkResult path p :: pages) (c0 :: reqs) sleeps
      else .done ⟨(mkResult path p :: pages).reverse, (c0 :: reqs).reverse, sleeps⟩ := by
  obtain ⟨payload, pinfo⟩ := p
  rw [paginate_go_ok, navigate_mkResult]
  cases pinfo with
  | some hc =>
    obtain ⟨h, c⟩ := hc
    rfl
  | none =>
    have hk : hasKey payload "pageInfo" = false := by
      simpa [pageClean] using hp
    have ha := alookup_eq_none_of_hasKey_false payload "pageInfo" hk
    have hg : Json.getD (mkConn ⟨payload, none⟩) "pageInfo" (.obj []) = .obj [] := by
      simp only [mkConn, Json.getD, ha]
    dsimp only
    rw [hg]
    rfl

theorem rlSteps (path : List String) (d : Nat) :
    ∀ (fuel : Nat) (tail : List GqlOutcome) (c0 : Json)
      (pages reqs : List Json) (sleeps : Nat),
    graphql_paginate_go scriptProvider path (fuel + d)
      (List.replicate d .rateLimited ++ tail) c0 pages reqs sleeps
    = graphql_paginate_go scriptProvider path fuel tail c0 pages
        (List.replicate d c0 ++ reqs) (sleeps + d) := by
  induction d with
  | zero => intro fuel tail c0 pages reqs sleeps; rfl
  | succ n ih =>
    intro fuel tail c0 pages reqs sleeps
    rw [show fuel + (n + 1) = (fuel + n) + 1 from rfl, List.replicate_succ,
      List.cons_append, paginate_go_rl, ih fuel tail c0 pages (c0 :: reqs) (sleeps + 1)]
    rw [replicate_append_cons, ← List.cons_append, ← List.replicate_succ]
    congr 1
    omega

theorem pageClean_of_hasNext (p : ChainPage) (h : pageHasNext p = true) :
    pageClean p = true := by
  obtain ⟨payload, pinfo⟩ := p
  cases pinfo with
  | some hc => rfl
  | none => simp [pageHasNext] at h

theorem chainRun (path : List String) :
    ∀ (zps : List (Nat × ChainPage)), zps ≠ [] →
    chainWF (zps.map Prod.snd) = true →
    ∀ (extra : Nat) (c0 : Json) (pages reqs : List Json) (sleeps : Nat),
    graphql_paginate_go scriptProvider path (chainFuel zps + extra)
      (chainScript path zps) c0 pages reqs sleeps
    = .done ⟨pages.reverse ++ chainPages path (zps.map Prod.snd),
             reqs.reverse ++ chainReqs c0 zps,
             sleeps + chainSleeps zps⟩ := by
  intro zps
  induction zps with
  | nil => intro h; exact absurd rfl h
  | cons hd tl ih =>
    obtain ⟨d, p⟩ := hd
    intro _ hwf extra c0 pages reqs sleeps
    cases tl with
    | nil =>
      rw [show List.map Prod.snd [(d, p)] = [p] from rfl] at hwf ⊢
      have hclean : pageClean p = true := by
        simp only [chainWF, Bool.and_eq_true] at hwf
        exact hwf.1
      have hlast : pageHasNext p = false := by
        simp only [chainWF, Bool.and_eq_true, Bool.not_eq_true'] at hwf
        exact hwf.2
      rw [show chainScript path [(d, p)]
          = List.replicate d .rateLimited ++ (.ok (mkResult path p) :: []) from rfl]
      rw [show chainFuel [(d, p)] + extra = (extra + 1) + d by
        simp only [chainFuel]; omega]
      rw [rlSteps path d (extra + 1) (.ok (mkResult path p) :: []) c0 pages
        reqs sleeps]
      rw [paginate_go_ok_page path p hclean extra [] c0 pages
        (List.replicate d c0 ++ reqs) (sleeps + d)]
      rw [hlast, if_neg Bool.false_ne_true]
      rw [show chainPages path [p] = [mkResult path p] from rfl]
      rw [show chainReqs c0 [(d, p)] = List.replicate (d + 1) c0 ++ [] from rfl]
      rw [show chainSleeps [(d, p)] = d + 0 from rfl]
      simp only [PagOutcome.done.injEq, PagTrace.mk.injEq]
      refine ⟨?_, ?_, ?_⟩
      · simp
      · simp [List.reverse_append, List.reverse_replicate, replicate_snoc]
      · omega
    | cons q tl2 =>
      rw [show List.map Prod.snd ((d, p) :: q :: tl2)
          = p :: q.2 :: List.map Prod.snd tl2 from rfl] at hwf ⊢
      have hnext : pageHasNext p = true := by
        simp only [chainWF, Bool.and_eq_true] at hwf
        exact hwf.1
      have hwf2 : chainWF ((q :: tl2).map Prod.snd) = true := by
        simp only [chainWF, Bool.and_eq_true] at hwf
        exact hwf.2
      have hclean := pageClean_of_hasNext p hnext
      rw [show chainScript path ((d, p) :: q :: tl2)
          = List.replicate d .rateLimited
            ++ (.ok (mkResult path p) :: chainScript path (q :: tl2)) from rfl]
      rw [show chainFuel ((d, p) :: q :: tl2) + extra
          = ((chainFuel (q :: tl2) + extra) + 1) + d by
        rw [show chainFuel ((d, p) :: q :: tl2)
            = d + 1 + chainFuel (q :: tl2) from rfl]
        omega]
      rw [rlSteps path d ((chainFuel (q :: tl2) + extra) + 1)
        (.ok (mkResult path p) :: chainScript path (q :: tl2)) c0 pages reqs
        sleeps]
      rw [paginate_go_ok_page path p hclean (chainFuel (q :: tl2) + extra)
        (chainScript path (q :: tl2)) c0 pages (List.replicate d c0 ++ reqs)
        (sleeps + d)]
      rw [hnext, if_pos rfl]
      rw [ih (by simp) hwf2 extra (nextCursor p) (mkResult path p :: pages)
        (c0 :: (List.replicate d c0 ++ reqs)) (sleeps + d)]
      rw [show List.map Prod.snd (q :: tl2) = q.2 :: List.map Prod.snd tl2 from rfl]
      rw [show chainPages path (p :: q.2 :: List.map Prod.snd tl2)
          = mkResult path p :: chainPages path (q.2 :: List.map Prod.snd tl2) from rfl]
      rw [show chainReqs c0 ((d, p) :: q :: tl2)
          = List.replicate (d + 1) c0 ++ chainReqs (nextCursor p) (q :: tl2) from rfl]
      rw [show chainSleeps ((d, p) :: q :: tl2)
          = d + chainSleeps (q :: tl2) from rfl]
      simp only [PagOutcome.done.injEq, PagTrace.mk.injEq]
      refine ⟨?_, ?_, ?_⟩
      · simp
      · simp [List.reverse_append, List.reverse_replicate, replicate_snoc,
          List.append_assoc]
      · omega

theorem chainSleeps_noDelays (zps : List (Nat × ChainPage)) :
    chainSleeps (noDelays zps) = 0 := by
  induction zps with
  | nil => rfl
  | cons hd tl ih => simpa [noDelays, chainSleeps] using ih

theorem noDelays_snd (zps : List (Nat × ChainPage)) :
    (noDelays zps).map Prod.snd = zps.map Prod.snd := by
  induction zps with
  | nil => rfl
  | cons hd tl ih => simp [noDelays]

theorem chainSleeps_zeroChain (ps : List ChainPage) :
    chainSleeps (ps.map (fun p => (0, p))) = 0 := by
  induction ps with
  | nil => rfl
  | cons hd tl ih => simpa [chainSleeps] using ih

theorem chainPages_length (path : List String) (ps : List ChainPage) :
    (chainPages path ps).length = ps.length := by
  induction ps with
  | nil => rfl
  | cons hd tl ih => simpa [chainPages] using ih

theorem chainReqs_expand (zps : List (Nat × ChainPage)) :
    ∀ (c0 : Json),
    chainReqs c0 zps
    = ((chainReqs c0 (noDelays zps)).zip (zps.map Prod.fst)).flatMap
        (fun cd => List.replicate (cd.2 + 1) cd.1) := by
  induction zps with
  | nil => intro c0; rfl
  | cons hd tl ih =>
    obtain ⟨d, p⟩ := hd
    intro c0
    simp only [chainReqs, noDelays, List.map_cons] at ih ⊢
    rw [show List.replicate (0 + 1) c0 ++ chainReqs (nextCursor p)
        (tl.map (fun z => (0, z.2))) = c0 :: chainReqs (nextCursor p)
        (tl.map (fun z => (0, z.2))) from by simp]
    rw [List.zip_cons_cons, List.flatMap_cons]
    rw [ih (nextCursor p)]

/-- C1: for a provider stub returning a finite chain of `N` pages — every
page but the last carrying `hasNextPage = true`, and the last carrying
`hasNextPage = false` or no pagination metadata at all (`chainWF`) —
`graphql_paginate` starts with cursor `null`, yields exactly the `N` full
page results in the stub's order (one yielded page per chain page, no
rate-limit result among them), issues every request after the first with
the previous page's `endCursor` (the `chainReqs` shape), and terminates
normally exactly at that last page. -/
theorem C1_pagination_chain (path : List String) (ps : List ChainPage)
    (hne : ps ≠ []) (hwf : chainWF ps = true) (extra : Nat) :
    graphql_paginate scriptProvider path
      (chainFuel (ps.map (fun p => (0, p))) + extra)
      (chainScript path (ps.map (fun p => (0, p))))
    = .done ⟨chainPages path ps, chainReqs .null (ps.map (fun p => (0, p))), 0⟩
    ∧ (chainPages path ps).length = ps.length := by
  constructor
  · have h := chainRun path (ps.map (fun p => (0, p)))
      (by simpa using hne) (by simpa using hwf) extra .null [] [] 0
    simpa [graphql_paginate, chainSleeps_zeroChain] using h
  · exact chainPages_length path ps

/-- C1 witness: a concrete two-page chain. -/
def samplePath : List String := ["organization", "repositories"]

/-- First sample page (has a next page, cursor `CUR1`). -/
def samplePage1 : ChainPage := ⟨[("nodes", .arr [.str "r1"])], some (true, "CUR1")⟩

/-- Second sample page (last page, `hasNextPage = false`). -/
def samplePage2 : ChainPage := ⟨[("nodes", .arr [.str "r2"])], some (false, "CUR2")⟩

/-- C1 witness: the theorem applied to the concrete two-page chain. -/
theorem C1_pagination_chain_witness :
    ([samplePage1, samplePage2] : List ChainPage) ≠ []
    ∧ chainWF [samplePage1, samplePage2] = true
    ∧ (graphql_paginate scriptProvider samplePath
        (chainFuel ([samplePage1, samplePage2].map (fun p => (0, p))) + 0)
        (chainScript samplePath ([samplePage1, samplePage2].map (fun p => (0, p))))
      = .done ⟨chainPages samplePath [samplePage1, samplePage2],
               chainReqs .null ([samplePage1, samplePage2].map (fun p => (0, p))), 0⟩
      ∧ (chainPages samplePath [samplePage1, samplePage2]).length
        = ([samplePage1, samplePage2] : List ChainPage).length) := by
  refine ⟨by simp, by rfl, ?_⟩
  exact C1_pagination_chain samplePath [samplePage1, samplePage2] (by simp) (by rfl) 0

/-- C2: over the same well-formed chain of pages, a run in which the
provider answers the request for page `i` with `dᵢ` rate-limit signals
before serving it yields exactly the same page sequence as the run with no
rate-limit signals (no rate-limit result is yielded, no page skipped or
duplicated); it sleeps once per rate-limit signal (the fixed process-wide
cooldown each time), and its request sequence is the no-rate-limit request
sequence with the request for page `i` reissued with the same cursor
`dᵢ + 1` times (`chainReqs_expand` conjunct: cursor not advanced on
retry). -/
theorem C2_rate_limit_refinement (path : List String)
    (zps : List (Nat × ChainPage)) (hne : zps ≠ [])
    (hwf : chainWF (zps.map Prod.snd) = true) (extra extra2 : Nat) :
    graphql_paginate scriptProvider path (chainFuel zps + extra)
      (chainScript path zps)
    = .done ⟨chainPages path (zps.map Prod.snd), chainReqs .null zps,
             chainSleeps zps⟩
    ∧ graphql_paginate scriptProvider path (chainFuel (noDelays zps) + extra2)
      (chainScript path (noDelays zps))
    = .done ⟨chainPages path (zps.map Prod.snd),
             chainReqs .null (noDelays zps), 0⟩
    ∧ chainReqs .null zps
    = ((chainReqs .null (noDelays zps)).zip (zps.map Prod.fst)).flatMap
        (fun cd => List.replicate (cd.2 + 1) cd.1) := by
  refine ⟨?_, ?_, chainReqs_expand zps .null⟩
  · have h := chainRun path zps hne hwf extra .null [] [] 0
    simpa [graphql_paginate] using h
  · have hne2 : noDelays zps ≠ [] := by
      cases zps with
      | nil => exact absurd rfl hne
      | cons a l => simp [noDelays]
    have hwf2 : chainWF ((noDelays zps).map Prod.snd) = true := by
      rw [noDelays_snd]; exact hwf
    have h := chainRun path (noDelays zps) hne2 hwf2 extra2 .null [] [] 0
    simpa [graphql_paginate, noDelays_snd, chainSleeps_noDelays] using h

/-- C2 witness: the theorem applied to the two-page chain with one
rate-limit signal before the first page. -/
theorem C2_rate_limit_refinement_witness :
    ([(1, samplePage1), (0, samplePage2)] : List (Nat × ChainPage)) ≠ []
    ∧ chainWF (([(1, samplePage1), (0, samplePage2)] :
        List (Nat × ChainPage)).map Prod.snd) = true
    ∧ (graphql_paginate scriptProvider samplePath
        (chainFuel [(1, samplePage1), (0, samplePage2)] + 0)
        (chainScript samplePath [(1, samplePage1), (0, samplePage2)])
      = .done ⟨chainPages samplePath
          (([(1, samplePage1), (0, samplePage2)] :
            List (Nat × ChainPage)).map Prod.snd),
          chainReqs .null [(1, samplePage1), (0, samplePage2)],
          chainSleeps [(1, samplePage1), (0, samplePage2)]⟩
      ∧ graphql_paginate scriptProvider samplePath
        (chainFuel (noDelays [(1, samplePage1), (0, samplePage2)]) + 0)
        (chainScript samplePath (noDelays [(1, samplePage1), (0, samplePage2)]))
      = .done ⟨chainPages samplePath
          (([(1, samplePage1), (0, samplePage2)] :
            List (Nat × ChainPage)).map Prod.snd),
          chainReqs .null (noDelays [(1, samplePage1), (0, samplePage2)]), 0⟩
      ∧ chainReqs .null [(1, samplePage1), (0, samplePage2)]
      = ((chainReqs .null (noDelays [(1, samplePage1), (0, samplePage2)])).zip
          (([(1, samplePage1), (0, samplePage2)] :
            List (Nat × ChainPage)).map Prod.fst)).flatMap
          (fun cd => List.replicate (cd.2 + 1) cd.1)) := by
  refine ⟨by simp, by rfl, ?_⟩
  exact C2_rate_limit_refinement samplePath [(1, samplePage1), (0, samplePage2)]
    (by simp) (by rfl) 0 0

/-! ## Lemmas about `_fetch_all_contributors`. -/

theorem classifyInitial_pend_of_202 (resp : RestResp)
    (h202 : resp.status = 202)
    (hok : classifyOk (classifyInitial resp) = true) :
    classifyInitial resp = .ok .pend := by
  obtain ⟨st, body⟩ := resp
  simp only at h202
  subst h202
  cases body with
  | none => rfl
  | some s =>
    by_cases hs : s.isEmpty
    · simp [classifyInitial, bodyTruthy, hs]
    · cases hj : json_loads s with
      | none =>
        simp [classifyInitial, bodyTruthy, hs, hj, classifyOk] at hok
      | some j => simp [classifyInitial, bodyTruthy, hs, hj]

theorem classifyInitial_resolved0_of_err (resp : RestResp)
    (hne200 : resp.status ≠ 200) (hne202 : resp.status ≠ 202)
    (hok : classifyOk (classifyInitial resp) = true) :
    classifyInitial resp = .ok (.resolved 0) := by
  obtain ⟨st, body⟩ := resp
  simp only at hne200 hne202
  cases body with
  | none => simp [classifyInitial, bodyTruthy, hne200, hne202]
  | some s =>
    by_cases hs : s.isEmpty
    · simp [classifyInitial, bodyTruthy, hs, hne200, hne202]
    · cases hj : json_loads s with
      | none =>
        simp [classifyInitial, bodyTruthy, hs, hj, classifyOk] at hok
      | some j => simp [classifyInitial, bodyTruthy, hs, hj, hne200, hne202]

theorem classifyRetry_pend_of_202 (resp : RestResp)
    (h202 : resp.status = 202) : classifyRetry resp = .pend := by
  simp [classifyRetry, h202]

theorem initial_pass_ok (rest : Nat → String → RestResp) (org : String) :
    ∀ (repos : List RepoNode),
    (∀ r ∈ repos, classifyOk (classifyInitial (rest 0 (contribUrl org r.name))) = true) →
    ∀ (m : List (String × Nat)) (pending : List String),
    ∃ out, initial_pass rest org repos m pending = .ok out := by
  intro repos
  induction repos with
  | nil => exact fun _ m pending => ⟨(m, pending), rfl⟩
  | cons r rs ih =>
    intro hok m pending
    have h1 := hok r (by simp)
    have hok2 : ∀ x ∈ rs, classifyOk (classifyInitial (rest 0 (contribUrl org x.name))) = true :=
      fun x hx => hok x (by simp [hx])
    cases hcl : classifyInitial (rest 0 (contribUrl org r.name)) with
    | error e =>
      rw [hcl] at h1
      simp [classifyOk] at h1
    | ok u =>
      cases u with
      | resolved v =>
        simp only [initial_pass, hcl]
        exact ih hok2 (dictSet m r.name v) pending
      | pend =>
        simp only [initial_pass, hcl]
        exact ih hok2 m (pending ++ [r.name])

theorem initial_pass_keys (rest : Nat → String → RestResp) (org : String) :
    ∀ (repos : List RepoNode) (m : List (String × Nat)) (pending : List String)
      (out : List (String × Nat) × List String),
    initial_pass rest org repos m pending = .ok out →
    ∀ n, (hasKey out.1 n = true ∨ n ∈ out.2)
      ↔ (hasKey m n = true ∨ n ∈ pending ∨ n ∈ repos.map RepoNode.name) := by
  intro repos
  induction repos with
  | nil =>
    intro m pending out h n
    simp only [initial_pass] at h
    cases h
    simp
  | cons r rs ih =>
    intro m pending out h n
    simp only [initial_pass] at h
    cases hcl : classifyInitial (rest 0 (contribUrl org r.name)) with
    | error e =>
      rw [hcl] at h
      cases h
    | ok u =>
      rw [hcl] at h
      cases u with
      | resolved v =>
        rw [ih (dictSet m r.name v) pending out h n]
        simp only [hasKey_dictSet, List.map_cons, List.mem_cons]
        tauto
      | pend =>
        rw [ih m (pending ++ [r.name]) out h n]
        simp only [List.mem_append, List.map_cons, List.mem_cons,
          List.mem_singleton]
        tauto

theorem initial_pass_resolved0 (rest : Nat → String → RestResp) (org : String)
    (n : String)
    (hcl : classifyInitial (rest 0 (contribUrl org n)) = .ok (.resolved 0)) :
    ∀ (repos : List RepoNode) (m : List (String × Nat)) (pending : List String)
      (out : List (String × Nat) × List String),
    initial_pass rest org repos m pending = .ok out →
    (alookup m n = some 0 ∨ n ∈ repos.map RepoNode.name) → ¬ n ∈ pending →
    alookup out.1 n = some 0 ∧ ¬ n ∈ out.2 := by
  intro repos
  induction repos with
  | nil =>
    intro m pending out h hin hnp
    simp only [initial_pass] at h
    cases h
    rcases hin with hv | hmem
    · exact ⟨hv, hnp⟩
    · simp at hmem
  | cons r rs ih =>
    intro m pending out h hin hnp
    simp only [initial_pass] at h
    by_cases hr : r.name = n
    · rw [hr, hcl] at h
      refine ih (dictSet m n 0) pending out h (Or.inl (alookup_dictSet_self m n 0)) hnp
    · cases hcl2 : classifyInitial (rest 0 (contribUrl org r.name)) with
      | error e =>
        rw [hcl2] at h
        cases h
      | ok u =>
        rw [hcl2] at h
        have hin2 : alookup m n = some 0 ∨ n ∈ rs.map RepoNode.name := by
          rcases hin with hv | hmem
          · exact Or.inl hv
          · simp only [List.map_cons, List.mem_cons] at hmem
            rcases hmem with he | hmem
            · exact absurd he.symm hr
            · exact Or.inr hmem
        cases u with
        | resolved v =>
          refine ih (dictSet m r.name v) pending out h ?_ hnp
          rcases hin2 with hv | hmem
          · exact Or.inl (by rw [alookup_dictSet_ne m r.name n v (fun he => hr he.symm)]; exact hv)
          · exact Or.inr hmem
        | pend =>
          refine ih m (pending ++ [r.name]) out h hin2 ?_
          simp only [List.mem_append, List.mem_singleton]
          rintro (hp | he)
          · exact hnp hp
          · exact hr he.symm

theorem initial_pass_pend (rest : Nat → String → RestResp) (org : String)
    (n : String)
    (hcl : classifyInitial (rest 0 (contribUrl org n)) = .ok .pend) :
    ∀ (repos : List RepoNode) (m : List (String × Nat)) (pending : List String)
      (out : List (String × Nat) × List String),
    initial_pass rest org repos m pending = .ok out →
    (n ∈ pending ∨ n ∈ repos.map RepoNode.name) → n ∈ out.2 := by
  intro repos
  induction repos with
  | nil =>
    intro m pending out h hin
    simp only [initial_pass] at h
    cases h
    rcases hin with hp | hmem
    · exact hp
    · simp at hmem
  | cons r rs ih =>
    intro m pending out h hin
    simp only [initial_pass] at h
    by_cases hr : r.name = n
    · rw [hr, hcl] at h
      refine ih m (pending ++ [n]) out h (Or.inl (by simp))
    · cases hcl2 : classifyInitial (rest 0 (contribUrl org r.name)) with
      | error e =>
        rw [hcl2] at h
        cases h
      | ok u =>
        rw [hcl2] at h
        have hin2 : n ∈ pending ∨ n ∈ rs.map RepoNode.name := by
          rcases hin with hp | hmem
          · exact Or.inl hp
          · simp only [List.map_cons, List.mem_cons] at hmem
            rcases hmem with he | hmem
            · exact absurd he.symm hr
            · exact Or.inr hmem
        cases u with
        | resolved v => exact ih (dictSet m r.name v) pending out h hin2
        | pend =>
          refine ih m (pending ++ [r.name]) out h ?_
          rcases hin2 with hp | hmem
          · exact Or.inl (by simp [hp])
          · exact Or.inr hmem

theorem retry_pass_keys (rest : Nat → String → RestResp) (org : String)
    (passIdx : Nat) :
    ∀ (pending : List String) (m : List (String × Nat)) (still : List String)
      (n : String),
    (hasKey (retry_pass rest org passIdx pending m still).1 n = true
      ∨ n ∈ (retry_pass rest org passIdx pending m still).2)
    ↔ (hasKey m n = true ∨ n ∈ still ∨ n ∈ pending) := by
  intro pending
  induction pending with
  | nil => intro m still n; simp [retry_pass]
  | cons p ps ih =>
    intro m still n
    simp only [retry_pass]
    cases classifyRetry (rest passIdx (contribUrl org p)) with
    | resolved v =>
      rw [ih (dictSet m p v) still n]
      simp only [hasKey_dictSet, List.mem_cons]
      tauto
    | pend =>
      rw [ih m (still ++ [p]) n]
      simp only [List.mem_append, List.mem_singleton, List.mem_cons]
      tauto

theorem retry_pass_untouched (rest : Nat → String → RestResp) (org : String)
    (passIdx : Nat) (n : String) :
    ∀ (pending : List String) (m : List (String × Nat)) (still : List String),
    ¬ n ∈ pending → ¬ n ∈ still →
    alookup (retry_pass rest org passIdx pending m still).1 n = alookup m n
    ∧ ¬ n ∈ (retry_pass rest org passIdx pending m still).2 := by
  intro pending
  induction pending with
  | nil => intro m still _ hs; exact ⟨rfl, hs⟩
  | cons p ps ih =>
    intro m still hp hs
    have hne : n ≠ p := by intro he; exact hp (by simp [he])
    have hps : ¬ n ∈ ps := by intro hh; exact hp (by simp [hh])
    simp only [retry_pass]
    cases classifyRetry (rest passIdx (contribUrl org p)) with
    | resolved v =>
      have := ih (dictSet m p v) still hps hs
      rw [alookup_dictSet_ne m p n v hne] at this
      exact this
    | pend =>
      refine ih m (still ++ [p]) hps ?_
      simp only [List.mem_append, List.mem_singleton]
      rintro (hh | he)
      · exact hs hh
      · exact hne he

theorem retry_pass_still_mem (rest : Nat → String → RestResp) (org : String)
    (passIdx : Nat) (n : String)
    (hcl : classifyRetry (rest passIdx (contribUrl org n)) = .pend) :
    ∀ (pending : List String) (m : List (String × Nat)) (still : List String),
    (n ∈ pending ∨ n ∈ still) →
    n ∈ (retry_pass rest org passIdx pending m still).2 := by
  intro pending
  induction pending with
  | nil =>
    intro m still hin
    rcases hin with hp | hs
    · simp at hp
    · exact hs
  | cons p ps ih =>
    intro m still hin
    simp only [retry_pass]
    by_cases hp : p = n
    · subst hp
      rw [hcl]
      refine ih m (still ++ [p]) (Or.inr (by simp))
    · cases classifyRetry (rest passIdx (contribUrl org p)) with
      | resolved v =>
        refine ih (dictSet m p v) still ?_
        rcases hin with hmem | hs
        · simp only [List.mem_cons] at hmem
          rcases hmem with he | hmem
          · exact absurd he.symm hp
          · exact Or.inl hmem
        · exact Or.inr hs
      | pend =>
        refine ih m (still ++ [p]) ?_
        rcases hin with hmem | hs
        · simp only [List.mem_cons] at hmem
          rcases hmem with he | hmem
          · exact absurd he.symm hp
          · exact Or.inl hmem
        · exact Or.inr (by simp [hs])

theorem retry_loop_keys (rest : Nat → String → RestResp) (org : String) :
    ∀ (retries passIdx : Nat) (pending : List String)
      (m : List (String × Nat)) (sleeps : Nat) (n : String),
    (hasKey (retry_loop rest org retries passIdx pending m sleeps).1 n = true
      ∨ n ∈ (retry_loop rest org retries passIdx pending m sleeps).2.1)
    ↔ (hasKey m n = true ∨ n ∈ pending) := by
  intro retries
  induction retries with
  | zero => intro passIdx pending m sleeps n; simp [retry_loop]
  | succ k ih =>
    intro passIdx pending m sleeps n
    simp only [retry_loop]
    by_cases hemp : pending.isEmpty
    · rw [if_pos hemp]
    · rw [if_neg hemp]
      rw [ih (passIdx + 1) (retry_pass rest org passIdx pending m []).2
        (retry_pass rest org passIdx pending m []).1 (sleeps + 1) n]
      rw [show ((hasKey (retry_pass rest org passIdx pending m []).1 n = true)
          ∨ n ∈ (retry_pass rest org passIdx pending m []).2)
          ↔ (hasKey m n = true ∨ n ∈ ([] : List String) ∨ n ∈ pending) from
        retry_pass_keys rest org passIdx pending m [] n]
      simp

theorem retry_loop_untouched (rest : Nat → String → RestResp) (org : String)
    (n : String) :
    ∀ (retries passIdx : Nat) (pending : List String)
      (m : List (String × Nat)) (sleeps : Nat),
    ¬ n ∈ pending →
    alookup (retry_loop rest org retries passIdx pending m sleeps).1 n
      = alookup m n
    ∧ ¬ n ∈ (retry_loop rest org retries passIdx pending m sleeps).2.1 := by
  intro retries
  induction retries with
  | zero => intro passIdx pending m sleeps hp; exact ⟨rfl, hp⟩
  | succ k ih =>
    intro passIdx pending m sleeps hp
    simp only [retry_loop]
    by_cases hemp : pending.isEmpty
    · rw [if_pos hemp]; exact ⟨rfl, hp⟩
    · rw [if_neg hemp]
      have hu := retry_pass_untouched rest org passIdx n pending m [] hp (by simp)
      have := ih (passIdx + 1) (retry_pass rest org passIdx pending m []).2
        (retry_pass rest org passIdx pending m []).1 (sleeps + 1) hu.2
      rw [hu.1] at this
      exact this

theorem retry_loop_still (rest : Nat → String → RestResp) (org : String)
    (n : String) :
    ∀ (retries passIdx : Nat),
    (∀ k, passIdx ≤ k → k < passIdx + retries →
      classifyRetry (rest k (contribUrl org n)) = .pend) →
    ∀ (pending : List String) (m : List (String × Nat)) (sleeps : Nat),
    n ∈ pending →
    n ∈ (retry_loop rest org retries passIdx pending m sleeps).2.1 := by
  intro retries
  induction retries with
  | zero => intro passIdx _ pending m sleeps hp; exact hp
  | succ k ih =>
    intro passIdx hcl pending m sleeps hp
    simp only [retry_loop]
    have hemp : pending.isEmpty = false := by
      cases pending with
      | nil => simp at hp
      | cons a l => rfl
    rw [hemp]
    simp only [Bool.false_eq_true, if_false]
    refine ih (passIdx + 1) (fun j hj1 hj2 => hcl j (by omega) (by omega))
      (retry_pass rest org passIdx pending m []).2
      (retry_pass rest org passIdx pending m []).1 (sleeps + 1) ?_
    exact retry_pass_still_mem rest org passIdx n
      (hcl passIdx (by omega) (by omega)) pending m [] (Or.inl hp)

theorem finalize_keys :
    ∀ (p : List String) (m : List (String × Nat)) (n : String),
    hasKey (finalize_pending p m) n = true
    ↔ (hasKey m n = true ∨ n ∈ p) := by
  intro p
  induction p with
  | nil => intro m n; simp [finalize_pending]
  | cons q qs ih =>
    intro m n
    simp only [finalize_pending]
    rw [ih (dictSet m q 0) n]
    simp only [hasKey_dictSet, List.mem_cons]
    tauto

theorem finalize_untouched (n : String) :
    ∀ (p : List String) (m : List (String × Nat)),
    ¬ n ∈ p → alookup (finalize_pending p m) n = alookup m n := by
  intro p
  induction p with
  | nil => intro m _; rfl
  | cons q qs ih =>
    intro m hnp
    have hne : n ≠ q := by intro he; exact hnp (by simp [he])
    have hqs : ¬ n ∈ qs := by intro hh; exact hnp (by simp [hh])
    simp only [finalize_pending]
    rw [ih (dictSet m q 0) hqs, alookup_dictSet_ne m q n 0 hne]

theorem finalize_mem (n : String) :
    ∀ (p : List String) (m : List (String × Nat)),
    n ∈ p → alookup (finalize_pending p m) n = some 0 := by
  intro p
  induction p with
  | nil => intro m h; simp at h
  | cons q qs ih =>
    intro m hin
    simp only [finalize_pending]
    by_cases hqs : n ∈ qs
    · exact ih (dictSet m q 0) hqs
    · have hq : n = q := by
        simp only [List.mem_cons] at hin
        rcases hin with he | hh
        · exact he
        · exact absurd hh hqs
      rw [finalize_untouched n qs (dictSet m q 0) hqs, hq,
        alookup_dictSet_self]

/-- C3: for every input repository list and every provider whose initial
responses are well-formed (parse as JSON, sized payloads: `classifyOk`),
`_fetch_all_contributors` succeeds and returns a map whose key set is
exactly the set of input repository names; a unit whose initial request
returns a status other than 200 or 202 maps to the default 0 (the result
holds for every behaviour of the provider on later passes, so the unit is
never retried); and a unit that answers 202 on the initial pass and on
every retry pass within the `MAX_CONTRIBUTOR_RETRIES` budget maps to the
default 0 (timeout). -/
theorem C3_contributor_poller (rest : Nat → String → RestResp) (org : String)
    (repos : List RepoNode)
    (hok : ∀ r ∈ repos,
      classifyOk (classifyInitial (rest 0 (contribUrl org r.name))) = true) :
    ∃ m sleeps,
      fetch_all_contributors rest org repos = .ok (m, sleeps)
      ∧ (∀ n, hasKey m n = true ↔ n ∈ repos.map RepoNode.name)
      ∧ (∀ r ∈ repos, (rest 0 (contribUrl org r.name)).status ≠ 200 →
          (rest 0 (contribUrl org r.name)).status ≠ 202 →
          alookup m r.name = some 0)
      ∧ (∀ r ∈ repos, (∀ k, k ≤ MAX_CONTRIBUTOR_RETRIES →
          (rest k (contribUrl org r.name)).status = 202) →
          alookup m r.name = some 0) := by
  obtain ⟨out, hinit⟩ := initial_pass_ok rest org repos hok [] []
  obtain ⟨m1, pending1⟩ := out
  refine ⟨finalize_pending
      (retry_loop rest org MAX_CONTRIBUTOR_RETRIES 1 pending1 m1 0).2.1
      (retry_loop rest org MAX_CONTRIBUTOR_RETRIES 1 pending1 m1 0).1,
    (retry_loop rest org MAX_CONTRIBUTOR_RETRIES 1 pending1 m1 0).2.2,
    ?_, ?_, ?_, ?_⟩
  · simp only [fetch_all_contributors]
    rw [hinit]
  · intro n
    rw [finalize_keys
      (retry_loop rest org MAX_CONTRIBUTOR_RETRIES 1 pending1 m1 0).2.1
      (retry_loop rest org MAX_CONTRIBUTOR_RETRIES 1 pending1 m1 0).1 n]
    rw [retry_loop_keys rest org MAX_CONTRIBUTOR_RETRIES 1 pending1 m1 0 n]
    rw [initial_pass_keys rest org repos [] [] (m1, pending1) hinit n]
    simp [hasKey]
  · intro r hr h200 h202
    have hcl := classifyInitial_resolved0_of_err (rest 0 (contribUrl org r.name))
      h200 h202 (hok r hr)
    have hres := initial_pass_resolved0 rest org r.name hcl repos [] []
      (m1, pending1) hinit (Or.inr (List.mem_map_of_mem RepoNode.name hr))
      (by simp)
    have hu := retry_loop_untouched rest org r.name MAX_CONTRIBUTOR_RETRIES 1
      pending1 m1 0 hres.2
    rw [finalize_untouched r.name
      (retry_loop rest org MAX_CONTRIBUTOR_RETRIES 1 pending1 m1 0).2.1
      (retry_loop rest org MAX_CONTRIBUTOR_RETRIES 1 pending1 m1 0).1 hu.2]
    rw [hu.1]
    exact hres.1
  · intro r hr hall
    have hcl0 := classifyInitial_pend_of_202 (rest 0 (contribUrl org r.name))
      (hall 0 (by omega)) (hok r hr)
    have hp1 := initial_pass_pend rest org r.name hcl0 repos [] []
      (m1, pending1) hinit (Or.inr (List.mem_map_of_mem RepoNode.name hr))
    have hstill := retry_loop_still rest org r.name MAX_CONTRIBUTOR_RETRIES 1
      (fun k hk1 hk2 => classifyRetry_pend_of_202
        (rest k (contribUrl org r.name)) (hall k (by omega)))
      pending1 m1 0 hp1
    exact finalize_mem r.name
      (retry_loop rest org MAX_CONTRIBUTOR_RETRIES 1 pending1 m1 0).2.1
      (retry_loop rest org MAX_CONTRIBUTOR_RETRIES 1 pending1 m1 0).1 hstill

/-- C3 witness stub: one unit ready immediately, one failing with 404, one
permanently pending. -/
def c3rest (_k : Nat) (url : String) : RestResp :=
  if url = contribUrl "org" "ok1" then ⟨200, some "[\x7b\x7d]"⟩
  else if url = contribUrl "org" "bad" then ⟨404, none⟩
  else ⟨202, none⟩

/-- C3 witness repository list. -/
def c3repos : List RepoNode := [⟨"ok1"⟩, ⟨"bad"⟩, ⟨"stuck"⟩]

/-- C3 witness: the theorem applied to the concrete three-unit stub. -/
theorem C3_contributor_poller_witness :
    (∀ r ∈ c3repos,
      classifyOk (classifyInitial (c3rest 0 (contribUrl "org" r.name))) = true)
    ∧ ∃ m sleeps,
      fetch_all_contributors c3rest "org" c3repos = .ok (m, sleeps)
      ∧ (∀ n, hasKey m n = true ↔ n ∈ c3repos.map RepoNode.name)
      ∧ (∀ r ∈ c3repos, (c3rest 0 (contribUrl "org" r.name)).status ≠ 200 →
          (c3rest 0 (contribUrl "org" r.name)).status ≠ 202 →
          alookup m r.name = some 0)
      ∧ (∀ r ∈ c3repos, (∀ k, k ≤ MAX_CONTRIBUTOR_RETRIES →
          (c3rest k (contribUrl "org" r.name)).status = 202) →
          alookup m r.name = some 0) :=
  ⟨by decide, C3_contributor_poller c3rest "org" c3repos (by decide)⟩


/-- C4 failing-input stub: the unit is pending (202) on the initial pass
and ready on the first retry pass with body `"[{}, {}]"` -- a JSON array of
two contributor entries whose raw text is eight characters long. -/
def c4rest (k : Nat) (_url : String) : RestResp :=
  if k = 0 then ⟨202, none⟩ else ⟨200, some "[\x7b\x7d, \x7b\x7d]"⟩

/-- C4: the retry pass does NOT apply the initial-pass (`Requested`)
semantics.  On the same 200 response with body `"[{}, {}]"`, the initial
pass resolves to `len(json.loads(data)) = 2` contributor entries, but the
retry pass resolves to `len(data) = 8`, the length of the raw body string
(`repository.py` line 64 measures the unparsed string).  A unit that was
pending once therefore resolves to 8 instead of 2. -/
theorem C4_retry_pass_semantics_bug :
    fetch_all_contributors c4rest "org" [⟨"alpha"⟩] = .ok ([("alpha", 8)], 1)
    ∧ classifyRetry ⟨200, some "[\x7b\x7d, \x7b\x7d]"⟩ = .resolved 8
    ∧ classifyInitial ⟨200, some "[\x7b\x7d, \x7b\x7d]"⟩ = .ok (.resolved 2)
    ∧ (8 : Nat) ≠ 2 :=
  ⟨rfl, rfl, rfl, by decide⟩

/-- C5 stub: unit `aaa` ready immediately, unit `bbb` pending on passes 0
and 1 and ready from pass 2 on, unit `ccc` permanently pending. -/
def c5rest (k : Nat) (url : String) : RestResp :=
  if url = contribUrl "org" "aaa" then ⟨200, some "[\x7b\x7d]"⟩
  else if url = contribUrl "org" "bbb" then
    (if k ≤ 1 then ⟨202, none⟩ else ⟨200, some "[\x7b\x7d, \x7b\x7d]"⟩)
  else ⟨202, none⟩

/-- C5 batch: {ready, pending-then-ready-after-2-polls, permanently-pending}. -/
def c5repos : List RepoNode := [⟨"aaa"⟩, ⟨"bbb"⟩, ⟨"ccc"⟩]

/-- C5 counterexample: on the three-unit batch
{ready, ready-after-2-polls, permanently-pending} the poller performs 20
sleep intervals -- the permanently-pending unit keeps the batched loop
alive until the whole `MAX_CONTRIBUTOR_RETRIES` budget is exhausted -- so
the total elapsed wait is `20 × retry_interval`, not the claimed
`2 × retry_interval`. -/
theorem C5_sleep_count_counterexample :
    fetch_all_contributors c5rest "org" c5repos
      = .ok ([("aaa", 1), ("bbb", 8), ("ccc", 0)], 20)
    ∧ 20 * CONTRIBUTOR_RETRY_SLEEP_SECONDS ≠ 2 * CONTRIBUTOR_RETRY_SLEEP_SECONDS :=
  ⟨rfl, by decide⟩

/-- C5 amended: on the batch {ready, pending-then-ready-after-2-polls,
permanently-pending}, the poller resolves the first unit immediately (to
1), leaves the second pending after retry pass 1 and resolves it on
exactly the second retry pass (to the value the retry pass computes for
the 200 body -- see the C4 retry-pass defect), and defaults the third to 0
after exhausting the retry budget; the number of sleep intervals equals
`MAX_CONTRIBUTOR_RETRIES` (one shared sleep per batched retry pass, kept
alive by the permanently-pending unit), for a total wait of
`MAX_CONTRIBUTOR_RETRIES × CONTRIBUTOR_RETRY_SLEEP_SECONDS = 200`
seconds. -/
theorem C5_poller_convergence_amended :
    fetch_all_contributors c5rest "org" c5repos
      = .ok ([("aaa", 1), ("bbb", 8), ("ccc", 0)], MAX_CONTRIBUTOR_RETRIES)
    ∧ (retry_pass c5rest "org" 1 ["bbb"] [] []).2 = ["bbb"]
    ∧ (retry_pass c5rest "org" 2 ["bbb"] [] []).1 = [("bbb", 8)]
    ∧ MAX_CONTRIBUTOR_RETRIES * CONTRIBUTOR_RETRY_SLEEP_SECONDS = 200 :=
  ⟨rfl, rfl, rfl, rfl⟩


/-! ## Lemmas about the lookup-only enrichment steps. -/

theorem reposKeys_modifyRec (res : Result) (n : String)
    (f : RepositoryResult → RepositoryResult) :
    reposKeys (modifyRec res n f) = reposKeys res := by
  simp [reposKeys, modifyRec, keys_modifyVal]

theorem containsRec_modifyRec (res : Result) (n n2 : String)
    (f : RepositoryResult → RepositoryResult) :
    containsRec (modifyRec res n f) n2 = containsRec res n2 := by
  simp [containsRec, modifyRec, hasKey_modifyVal]

theorem lookupRec_modifyRec_self (res : Result) (n : String)
    (f : RepositoryResult → RepositoryResult) :
    lookupRec (modifyRec res n f) n = (lookupRec res n).map f := by
  simp [lookupRec, modifyRec, alookup_modifyVal_self]

theorem containsRec_of_lookupRec (res : Result) (n : String)
    (r : RepositoryResult) (h : lookupRec res n = some r) :
    containsRec res n = true :=
  hasKey_of_alookup_some res.repositories n r h

theorem add_issue_keys (excluded : List String) (config : Config) :
    ∀ (rows : List IssueRow) (res : Result),
    reposKeys (add_issue_and_pr_data excluded config rows res) = reposKeys res := by
  intro rows
  induction rows with
  | nil => intro res; rfl
  | cons row rest ih =>
    intro res
    simp only [add_issue_and_pr_data]
    split
    · exact ih res
    · split
      · rw [ih, reposKeys_modifyRec]
      · exact ih res

theorem add_issue_absent (excluded : List String) (config : Config) :
    ∀ (rows : List IssueRow) (res : Result),
    (∀ row ∈ rows, containsRec res row.name = false) →
    add_issue_and_pr_data excluded config rows res = res := by
  intro rows
  induction rows with
  | nil => intro res _; rfl
  | cons row rest ih =>
    intro res habs
    have h0 : containsRec res row.name = false := habs row (by simp)
    simp only [add_issue_and_pr_data]
    split
    · exact ih res (fun r hr => habs r (by simp [hr]))
    · rw [if_neg (by simp [h0])]
      exact ih res (fun r hr => habs r (by simp [hr]))

theorem add_discussion_keys (excluded : List String) (config : Config) :
    ∀ (rows : List DiscussionRow) (res : Result),
    reposKeys (add_discussion_data excluded config rows res) = reposKeys res := by
  intro rows
  induction rows with
  | nil => intro res; rfl
  | cons row rest ih =>
    intro res
    simp only [add_discussion_data]
    split
    · exact ih res
    · split
      · rw [ih, reposKeys_modifyRec]
      · exact ih res

theorem add_discussion_absent (excluded : List String) (config : Config) :
    ∀ (rows : List DiscussionRow) (res : Result),
    (∀ row ∈ rows, containsRec res row.name = false) →
    add_discussion_data excluded config rows res = res := by
  intro rows
  induction rows with
  | nil => intro res _; rfl
  | cons row rest ih =>
    intro res habs
    have h0 : containsRec res row.name = false := habs row (by simp)
    simp only [add_discussion_data]
    split
    · exact ih res (fun r hr => habs r (by simp [hr]))
    · rw [if_neg (by simp [h0])]
      exact ih res (fun r hr => habs r (by simp [hr]))

theorem add_pepy_keys :
    ∀ (rows : List PepyProcessed) (res : Result),
    reposKeys (add_downloads_pepy rows res) = reposKeys res := by
  intro rows
  induction rows with
  | nil => intro res; rfl
  | cons row rest ih =>
    intro res
    simp only [add_downloads_pepy]
    split
    · rw [ih, reposKeys_modifyRec]
    · exact ih res

theorem add_pepy_absent :
    ∀ (rows : List PepyProcessed) (res : Result),
    (∀ row ∈ rows, containsRec res row.repo_name = false) →
    add_downloads_pepy rows res = res := by
  intro rows
  induction rows with
  | nil => intro res _; rfl
  | cons row rest ih =>
    intro res habs
    have h0 : containsRec res row.repo_name = false := habs row (by simp)
    simp only [add_downloads_pepy]
    rw [if_neg (by simp [h0])]
    exact ih res (fun r hr => habs r (by simp [hr]))

theorem conda_totals_keys (legacy : List (String × String)) :
    ∀ (rows : List (String × Int)) (res : Result),
    reposKeys (conda_totals_loop legacy rows res) = reposKeys res := by
  intro rows
  induction rows with
  | nil => intro res; rfl
  | cons row rest ih =>
    intro res
    obtain ⟨pkg, total⟩ := row
    simp only [conda_totals_loop]
    split
    · rw [ih, reposKeys_modifyRec]
    · exact ih res

theorem conda_totals_absent (legacy : List (String × String)) :
    ∀ (rows : List (String × Int)) (res : Result),
    (∀ row ∈ rows, containsRec res (legacyMap legacy row.1) = false) →
    conda_totals_loop legacy rows res = res := by
  intro rows
  induction rows with
  | nil => intro res _; rfl
  | cons row rest ih =>
    intro res habs
    obtain ⟨pkg, total⟩ := row
    have h0 : containsRec res (legacyMap legacy pkg) = false := habs (pkg, total) (by simp)
    simp only [conda_totals_loop]
    rw [if_neg (by simp [h0])]
    exact ih res (fun r hr => habs r (by simp [hr]))

theorem conda_monthly_keys (legacy : List (String × String)) :
    ∀ (rows : List (String × Int)) (res : Result),
    reposKeys (conda_monthly_loop legacy rows res) = reposKeys res := by
  intro rows
  induction rows with
  | nil => intro res; rfl
  | cons row rest ih =>
    intro res
    obtain ⟨pkg, total⟩ := row
    simp only [conda_monthly_loop]
    split
    · rw [ih, reposKeys_modifyRec]
    · exact ih res

theorem conda_monthly_absent (legacy : List (String × String)) :
    ∀ (rows : List (String × Int)) (res : Result),
    (∀ row ∈ rows, containsRec res (legacyMap legacy row.1) = false) →
    conda_monthly_loop legacy rows res = res := by
  intro rows
  induction rows with
  | nil => intro res _; rfl
  | cons row rest ih =>
    intro res habs
    obtain ⟨pkg, total⟩ := row
    have h0 : containsRec res (legacyMap legacy pkg) = false := habs (pkg, total) (by simp)
    simp only [conda_monthly_loop]
    rw [if_neg (by simp [h0])]
    exact ih res (fun r hr => habs r (by simp [hr]))

/-- C6: the four lookup-only enrichment steps never add a key to the
Report's record set (first four conjuncts, for arbitrary provider rows),
and when every repository name in the provider's response (after legacy
remapping, for the conda step) is absent from the Report, each step
returns the Report unchanged (last four conjuncts).  The embedded update
loops are total functions: the absent-name path is the source's silent
`continue`, and no exception path exists for an absent name. -/
theorem C6_lookup_steps_frame (excluded : List String) (config : Config)
    (irowsA : List IssueRow) (drowsA : List DiscussionRow)
    (prowsA : List PepyProcessed) (legacyA : List (String × String))
    (ctotA cmonA : List (String × Int))
    (irowsB : List IssueRow) (drowsB : List DiscussionRow)
    (prowsB : List PepyProcessed) (legacyB : List (String × String))
    (ctotB cmonB : List (String × Int)) (res : Result)
    (hiB : ∀ row ∈ irowsB, containsRec res row.name = false)
    (hdB : ∀ row ∈ drowsB, containsRec res row.name = false)
    (hpB : ∀ row ∈ prowsB, containsRec res row.repo_name = false)
    (hcB : ∀ row ∈ ctotB, containsRec res (legacyMap legacyB row.1) = false)
    (hmB : ∀ row ∈ cmonB, containsRec res (legacyMap legacyB row.1) = false) :
    reposKeys (add_issue_and_pr_data excluded config irowsA res) = reposKeys res
    ∧ reposKeys (add_discussion_data excluded config drowsA res) = reposKeys res
    ∧ reposKeys (add_downloads_pepy prowsA res) = reposKeys res
    ∧ reposKeys (add_conda_data legacyA ctotA cmonA res) = reposKeys res
    ∧ add_issue_and_pr_data excluded config irowsB res = res
    ∧ add_discussion_data excluded config drowsB res = res
    ∧ add_downloads_pepy prowsB res = res
    ∧ add_conda_data legacyB ctotB cmonB res = res := by
  refine ⟨add_issue_keys excluded config irowsA res,
    add_discussion_keys excluded config drowsA res,
    add_pepy_keys prowsA res, ?_,
    add_issue_absent excluded config irowsB res hiB,
    add_discussion_absent excluded config drowsB res hdB,
    add_pepy_absent prowsB res hpB, ?_⟩
  · unfold add_conda_data
    rw [conda_monthly_keys legacyA cmonA, conda_totals_keys legacyA ctotA]
  · unfold add_conda_data
    rw [conda_totals_absent legacyB ctotB res hcB,
      conda_monthly_absent legacyB cmonB res hmB]

/-- C6 witness record set: a Report holding exactly one record, `"a"`. -/
def c6res : Result :=
  { repositories := [("a", { repository_name := "a" })] }

/-- C6 witness issue row naming the present record `"a"`. -/
def c6irowA : IssueRow := ⟨"a", 4, 1, 3, 1, 2, 1, 1⟩

/-- C6 witness issue row naming an absent record. -/
def c6irowB : IssueRow := ⟨"ghost", 4, 1, 3, 1, 2, 1, 1⟩

/-- C6 witness discussion row for the present record. -/
def c6drowA : DiscussionRow := ⟨"a", 5⟩

/-- C6 witness discussion row naming an absent record. -/
def c6drowB : DiscussionRow := ⟨"ghost", 5⟩

/-- C6 witness PePy row for the present record. -/
def c6prowA : PepyProcessed := ⟨"a", 9, 4, 2, 1⟩

/-- C6 witness PePy row naming an absent record. -/
def c6prowB : PepyProcessed := ⟨"ghost", 9, 4, 2, 1⟩

/-- C6 witness legacy map for the absent-name group. -/
def c6legacyB : List (String × String) := [("old-ghost", "ghost")]

/-- C6 witness: the theorem applied at concrete rows, with the A-group
rows mentioning the present name and the B-group rows mentioning only
absent names (also after legacy remapping). -/
theorem C6_lookup_steps_frame_witness :
    (∀ row ∈ [c6irowB], containsRec c6res row.name = false)
    ∧ (∀ row ∈ [c6drowB], containsRec c6res row.name = false)
    ∧ (∀ row ∈ [c6prowB], containsRec c6res row.repo_name = false)
    ∧ (∀ row ∈ [(("old-ghost", (7 : Int)))],
      containsRec c6res (legacyMap c6legacyB row.1) = false)
    ∧ (∀ row ∈ [(("ghost", (2 : Int)))],
      containsRec c6res (legacyMap c6legacyB row.1) = false)
    ∧ (reposKeys (add_issue_and_pr_data [] {} [c6irowA] c6res) = reposKeys c6res
      ∧ reposKeys (add_discussion_data [] {} [c6drowA] c6res) = reposKeys c6res
      ∧ reposKeys (add_downloads_pepy [c6prowA] c6res) = reposKeys c6res
      ∧ reposKeys (add_conda_data [] [("a", 7)] [("a", 2)] c6res) = reposKeys c6res
      ∧ add_issue_and_pr_data [] {} [c6irowB] c6res = c6res
      ∧ add_discussion_data [] {} [c6drowB] c6res = c6res
      ∧ add_downloads_pepy [c6prowB] c6res = c6res
      ∧ add_conda_data c6legacyB [("old-ghost", 7)] [("ghost", 2)] c6res = c6res) := by
  refine ⟨by decide, by decide, by decide, by decide, by decide, ?_⟩
  exact C6_lookup_steps_frame [] {} [c6irowA] [c6drowA] [c6prowA] []
    [("a", 7)] [("a", 2)] [c6irowB] [c6drowB] [c6prowB] c6legacyB
    [("old-ghost", 7)] [("ghost", 2)] c6res
    (by decide) (by decide) (by decide) (by decide) (by decide)


/-! ## Filtering policy, accumulation semantics, and main configuration. -/

/-- C7: the filtering policy excludes a repository node exactly when it is
archived and archived repositories are not included, or it is a fork and
forks are not included, or its name is in the cached exclusion list, or
its name starts with one of the constant excluded name starts (first
conjunct); in particular an archived node is excluded whenever
`include_archived` is false (second conjunct), with `include_forks = true`
the fork flag plays no role (third conjunct: the decision reduces to the
archived rule and the name rules), and the name `"slides-"`, exactly equal
to an excluded name start, is excluded for every configuration and every
flag combination (fourth conjunct). -/
theorem C7_filtering_policy (excluded : List String) (config : Config)
    (node : RepoFlags) :
    (repo_filtered_out excluded config node = true ↔
      ((node.isArchived = true ∧ config.include_archived = false)
        ∨ (node.isFork = true ∧ config.include_forks = false)
        ∨ node.name ∈ excluded
        ∨ ∃ p ∈ EXCLUDED_REPO_PREFIXES, strStartsWith node.name p = true))
    ∧ (∀ (e2 : List String) (org : String) (incF : Bool) (s : Option String)
        (n : String) (f : Bool),
        repo_filtered_out e2 ⟨org, incF, false, s⟩ ⟨n, true, f⟩ = true)
    ∧ (∀ (e2 : List String) (org : String) (incA : Bool) (s : Option String)
        (n : String) (a f : Bool),
        repo_filtered_out e2 ⟨org, true, incA, s⟩ ⟨n, a, f⟩
          = (a && !incA || should_exclude_repo e2 n ⟨org, true, incA, s⟩))
    ∧ (∀ (e2 : List String) (c2 : Config) (a f : Bool),
        repo_filtered_out e2 c2 ⟨"slides-", a, f⟩ = true) := by
  refine ⟨?_, ?_, ?_, ?_⟩
  · obtain ⟨nm, na, nf⟩ := node
    obtain ⟨o, iF, iA, s⟩ := config
    simp only [repo_filtered_out, should_exclude_repo]
    cases na <;> cases nf <;> cases iA <;> cases iF <;>
      simp [List.any_eq_true, EXCLUDED_REPO_PREFIXES]
  · intro e2 org incF s n f
    simp [repo_filtered_out]
  · intro e2 org incA s n a f
    cases a <;> cases incA <;> simp [repo_filtered_out]
  · intro e2 c2 a f
    obtain ⟨o, iF, iA, s⟩ := c2
    have hsw : strStartsWith "slides-" "slides-" = true := by decide
    cases a <;> cases iA <;> cases f <;> cases iF <;>
      simp [repo_filtered_out, should_exclude_repo, EXCLUDED_REPO_PREFIXES, hsw]

/-- C8 record: a repository record with pre-existing download totals. -/
def c8rec : RepositoryResult :=
  { repository_name := "pkg", total_download_count := 5,
    conda_total_downloads := 5 }

/-- C8 record set: one record, `"pkg"`, with nonzero current totals. -/
def c8res : Result := { repositories := [("pkg", c8rec)] }

/-- C8 PePy row reporting 7 total downloads for `"pkg"`. -/
def c8row : PepyProcessed := ⟨"pkg", 7, 3, 2, 1⟩

/-- C8 counterexample: not every download accumulation field uses
add-in-place semantics.  `add_downloads_pepy` ASSIGNS the download fields:
on a record whose `total_download_count` is 5, a PePy row reporting 7
leaves the field at 7, not at 5 + 7 = 12 as add-in-place would. -/
theorem C8_accumulation_counterexample :
    (lookupRec (add_downloads_pepy [c8row] c8res) "pkg").map
      RepositoryResult.total_download_count = some 7
    ∧ ¬((7 : Int) = 5 + 7) :=
  ⟨rfl, by decide⟩

/-- C8 amended: the conda download accumulators use add-in-place
semantics — two rows whose (legacy-remapped) package names hit the same
record sum into its current value, which is how legacy-name remapping
coalesces — while the PePy download fields are assigned by overwrite (the
contributor count, likewise, is written once at record creation and never
accumulated). -/
theorem C8_accumulation_amended (legacy : List (String × String))
    (p1 p2 : String) (v1 v2 : Int) (res : Result) (n : String)
    (r : RepositoryResult) (row : PepyProcessed) (r2 : RepositoryResult)
    (h1 : legacyMap legacy p1 = n) (h2 : legacyMap legacy p2 = n)
    (hr : lookupRec res n = some r)
    (hr2 : lookupRec res row.repo_name = some r2) :
    lookupRec (conda_totals_loop legacy [(p1, v1), (p2, v2)] res) n
      = some { r with conda_total_downloads := r.conda_total_downloads + v1 + v2 }
    ∧ lookupRec (add_downloads_pepy [row] res) row.repo_name
      = some { r2 with
               total_download_count := row.total
               monthly_download_count := row.monthly
               weekly_download_count := row.weekly
               daily_download_count := row.daily } := by
  have hc1 : containsRec res n = true := containsRec_of_lookupRec res n r hr
  have hc2 : containsRec res row.repo_name = true :=
    containsRec_of_lookupRec res row.repo_name r2 hr2
  constructor
  · simp only [conda_totals_loop, h1, h2, hc1, containsRec_modifyRec,
      if_pos]
    rw [lookupRec_modifyRec_self, lookupRec_modifyRec_self, hr]
    rfl
  · simp only [add_downloads_pepy, hc2, if_pos]
    rw [lookupRec_modifyRec_self, hr2]
    rfl

/-- C8 witness: the amended theorem applied to a concrete record set with
a legacy name `"old"` remapping to `"pkg"`. -/
theorem C8_accumulation_amended_witness :
    legacyMap [("old", "pkg")] "old" = "pkg"
    ∧ legacyMap [("old", "pkg")] "pkg" = "pkg"
    ∧ lookupRec c8res "pkg" = some c8rec
    ∧ (lookupRec (conda_totals_loop [("old", "pkg")]
          [("old", 2), ("pkg", 3)] c8res) "pkg"
        = some { c8rec with
            conda_total_downloads := c8rec.conda_total_downloads + 2 + 3 }
      ∧ lookupRec (add_downloads_pepy [c8row] c8res) c8row.repo_name
        = some { c8rec with
                 total_download_count := c8row.total
                 monthly_download_count := c8row.monthly
                 weekly_download_count := c8row.weekly
                 daily_download_count := c8row.daily }) := by
  refine ⟨rfl, rfl, rfl, ?_⟩
  exact C8_accumulation_amended [("old", "pkg")] "old" "pkg" 2 3 c8res "pkg"
    c8rec c8row c8rec rfl rfl rfl rfl

/-- C9 environment for the counterexample: `PEPY_API_KEY` and
`ORGANIZATION_NAME` are set, `GRAPHQL_TOKEN` is missing. -/
def c9env (v : String) : Option String :=
  if v = "PEPY_API_KEY" then some "k"
  else if v = "ORGANIZATION_NAME" then some "org" else none

/-- C9 yaml configuration with an organization entry. -/
def c9yaml : YamlConfig := { organization := .one "org" }

/-- C9 counterexample: a run missing a required API token does NOT abort
with a non-zero exit status — `main` logs a warning and returns ("CI
mode"), so the process exits with status 0.  (No report is produced: the
outcome is not `proceed`.) -/
theorem C9_missing_secret_counterexample :
    main_config_check c9env c9yaml "2025-01-01" = .ciSkip
    ∧ mainExitCode (main_config_check c9env c9yaml "2025-01-01") = 0
    ∧ main_config_check c9env c9yaml "2025-01-01" ≠ .proceed [] :=
  ⟨rfl, rfl, by decide⟩

/-- C9 amended: configuration problems are detected before any network
activity, and no report is produced for them, but the exit status differs
by case — a missing `GRAPHQL_TOKEN` or `PEPY_API_KEY` causes a clean
early return with exit status 0 (CI mode), while a missing organization
name (with the secrets present) aborts via `sys.exit(1)` with exit status
1; the run only proceeds to fetching when both secrets are present and an
organization is configured. -/
theorem C9_config_check_amended (env : String → Option String)
    (yaml : YamlConfig) (d : String) :
    ((truthyStr (env "GRAPHQL_TOKEN") = false
        ∨ truthyStr (env "PEPY_API_KEY") = false) →
      main_config_check env yaml d = .ciSkip
      ∧ mainExitCode (main_config_check env yaml d) = 0)
    ∧ (truthyStr (env "GRAPHQL_TOKEN") = true →
      truthyStr (env "PEPY_API_KEY") = true →
      truthyStr (env "ORGANIZATION_NAME") = false →
      orgTruthy yaml.organization = false →
      main_config_check env yaml d = .exitErr 1
      ∧ mainExitCode (main_config_check env yaml d) = 1)
    ∧ (∀ cfgs, main_config_check env yaml d = .proceed cfgs →
      truthyStr (env "GRAPHQL_TOKEN") = true
      ∧ truthyStr (env "PEPY_API_KEY") = true
      ∧ (truthyStr (env "ORGANIZATION_NAME") = true
        ∨ orgTruthy yaml.organization = true)) := by
  refine ⟨?_, ?_, ?_⟩
  · intro h
    have hmain : main_config_check env yaml d = .ciSkip := by
      rcases h with h1 | h2
      · simp [main_config_check, h1]
      · simp [main_config_check, h2]
    exact ⟨hmain, by rw [hmain]; rfl⟩
  · intro h1 h2 h3 h4
    have hmain : main_config_check env yaml d = .exitErr 1 := by
      simp [main_config_check, h1, h2, h3, h4]
    exact ⟨hmain, by rw [hmain]; rfl⟩
  · intro cfgs h
    cases h1 : truthyStr (env "GRAPHQL_TOKEN") with
    | false => rw [show main_config_check env yaml d = .ciSkip from by
        simp [main_config_check, h1]] at h; cases h
    | true =>
      cases h2 : truthyStr (env "PEPY_API_KEY") with
      | false => rw [show main_config_check env yaml d = .ciSkip from by
          simp [main_config_check, h2]] at h; cases h
      | true =>
        refine ⟨rfl, rfl, ?_⟩
        cases h3 : truthyStr (env "ORGANIZATION_NAME") with
        | true => exact Or.inl rfl
        | false =>
          cases h4 : orgTruthy yaml.organization with
          | true => exact Or.inr rfl
          | false =>
            rw [show main_config_check env yaml d = .exitErr 1 from by
              simp [main_config_check, h1, h2, h3, h4]] at h
            cases h

/-- C9 witness environment: both secrets present, no organization
anywhere. -/
def c9env2 (v : String) : Option String :=
  if v = "GRAPHQL_TOKEN" then some "t"
  else if v = "PEPY_API_KEY" then some "k" else none

/-- C9 witness: the amended theorem applied to a run with both secrets
present and no organization configured: it aborts with exit status 1. -/
theorem C9_config_check_amended_witness :
    main_config_check c9env2 {} "2025-01-01" = .exitErr 1
    ∧ mainExitCode (main_config_check c9env2 {} "2025-01-01") = 1 :=
  (C9_config_check_amended c9env2 {} "2025-01-01").2.1 rfl rfl rfl rfl

/-- C10: `should_exclude_repo` never reads its `config` argument: its
verdict is the same for any two configurations, depending only on the
name, the process-lifetime cached exclusion list, and the constant
excluded name starts. -/
theorem C10_exclusion_config_independence (excluded : List String)
    (repo_name : String) (c1 c2 : Config) :
    should_exclude_repo excluded repo_name c1
      = should_exclude_repo excluded repo_name c2 := rfl

end OssDash
